import Mathlib

/-!
Verification of the neuro-symbolic TTA emulator core.

Shallow embedding of the Rust sources:
  * `src/register.rs`  — `NeuralRegister`
  * `src/fu.rs`        — `Activation`, `BaseFU`, stateful functional units
  * `src/bus.rs`       — `MoveOp`, `SystemBus` (address decode, guarded moves)
  * `src/system.rs`    — `SystemEmulator` (fetch-execute loop)
  * `src/legacy/gate.rs`, `src/legacy/circuit.rs` — gates and the memoized
    DAG circuit evaluator

`f32` activations are modelled as `ℚ`; the transcendental scalar maps used by
the `Sigmoid`/`Tanh` activations are abstract parameters (`sig`, `tanq`),
since every verified property is independent of their pointwise values.
Rust `HashMap`s are modelled as association lists with unique keys;
`HashMap::insert` is in-place replacement (`amInsert`).
-/

set_option maxHeartbeats 1000000

/-- Association-list lookup, modelling `HashMap::get`. -/
def amFind {κ α : Type} [DecidableEq κ] (k : κ) : List (κ × α) → Option α
  | [] => none
  | (k', v) :: rest => if k = k' then some v else amFind k rest

/-- Association-list insert-or-replace, modelling `HashMap::insert`. -/
def amInsert {κ α : Type} [DecidableEq κ] (k : κ) (v : α) : List (κ × α) → List (κ × α)
  | [] => [(k, v)]
  | (k', v') :: rest => if k = k' then (k, v) :: rest else (k', v') :: amInsert k v rest

theorem amFind_amInsert_self {κ α : Type} [DecidableEq κ] (k : κ) (v : α)
    (m : List (κ × α)) : amFind k (amInsert k v m) = some v := by
  induction m with
  | nil => simp [amInsert, amFind]
  | cons p rest ih =>
    obtain ⟨k', v'⟩ := p
    by_cases h : k = k' <;> simp [amInsert, amFind, h, ih]

theorem amFind_amInsert_ne {κ α : Type} [DecidableEq κ] (k k' : κ) (v : α)
    (m : List (κ × α)) (h : k' ≠ k) :
    amFind k' (amInsert k v m) = amFind k' m := by
  induction m with
  | nil => simp [amInsert, amFind, h]
  | cons p rest ih =>
    obtain ⟨k'', v''⟩ := p
    by_cases h1 : k = k''
    · subst h1
      simp [amInsert, amFind, h]
    · by_cases h2 : k' = k'' <;> simp [amInsert, amFind, h1, h2, ih]

/-! ## `src/register.rs` — `NeuralRegister` -/

/-- `NeuralRegister { state: Array1<f32>, width: usize }`. -/
structure NeuralRegister where
  state : List ℚ
  width : Nat
  deriving DecidableEq, Repr

namespace NeuralRegister

/-- `NeuralRegister::new(width)`: zero state of the declared width. -/
def new (width : Nat) : NeuralRegister :=
  { state := List.replicate width 0, width := width }

/-- `NeuralRegister::write`: replace the state iff the length matches the
declared width, else leave the state unchanged (the Rust code logs a warning
to stderr, which has no effect on register state). -/
def write (r : NeuralRegister) (value : List ℚ) : NeuralRegister :=
  if value.length = r.width then { r with state := value } else r

/-- `NeuralRegister::read`: returns (a copy of) the state. -/
def read (r : NeuralRegister) : List ℚ := r.state

/-- Helper for `to_symbolic`: iterate over the state with its index,
OR-ing `1 << i` into the accumulator for every activation `> 0.5`
(the Rust loop `for (i, &v) in self.state.iter().enumerate()`). -/
def toSymAux : Nat → List ℚ → Nat
  | _, [] => 0
  | i, v :: rest => (if v > 1/2 then 1 <<< i else 0) ||| toSymAux (i + 1) rest

/-- `NeuralRegister::to_symbolic`: bit *i* of the result is set iff
`state[i] > 0.5`. -/
def to_symbolic (r : NeuralRegister) : Nat :=
  toSymAux 0 r.state

/-- `NeuralRegister::from_symbolic(width, val)`: build the bit-plane vector
(1.0 where bit *i* of `val` is set, else 0.0) and `write` it into a fresh
register of the given width. -/
def from_symbolic (width : Nat) (val : Nat) : NeuralRegister :=
  let reg := new width
  let vec := (List.range width).map (fun i => if (val >>> i) &&& 1 = 1 then (1 : ℚ) else 0)
  reg.write vec

/-- `NeuralRegister::cleanup`: snap every activation to 1.0 / 0.0 at the 0.5
threshold. -/
def cleanup (r : NeuralRegister) : NeuralRegister :=
  { r with state := r.state.map (fun v => if v > 1/2 then (1 : ℚ) else 0) }

end NeuralRegister

/-! ### Round-trip lemmas for C8 -/

theorem toSymAux_testBit (l : List ℚ) (k j : Nat) :
    (NeuralRegister.toSymAux k l).testBit j =
      (decide (k ≤ j) && decide (l.getD (j - k) 0 > 1/2)) := by
  induction l generalizing k with
  | nil =>
    have h0 : decide ((0 : ℚ) > 1/2) = false := decide_eq_false (by norm_num)
    show Nat.testBit 0 j = _
    rw [Nat.zero_testBit, List.getD_nil, h0, Bool.and_false]
  | cons v rest ih =>
    have step : NeuralRegister.toSymAux k (v :: rest) =
        (if v > 1/2 then 1 <<< k else 0) ||| NeuralRegister.toSymAux (k + 1) rest := rfl
    rw [step, Nat.testBit_or, ih (k + 1)]
    rcases Nat.lt_trichotomy j k with hjk | hjk | hjk
    · have h1 : decide (k ≤ j) = false := decide_eq_false (Nat.not_le_of_lt hjk)
      have h2 : decide (k + 1 ≤ j) = false := decide_eq_false (by omega)
      have h3 : (if v > 1/2 then 1 <<< k else 0).testBit j = false := by
        by_cases hv : v > 1/2
        · rw [if_pos hv, Nat.one_shiftLeft]
          exact Nat.testBit_two_pow_of_ne (by omega)
        · rw [if_neg hv]
          exact Nat.zero_testBit j
      rw [h1, h2, h3, Bool.false_and, Bool.false_and, Bool.false_or]
    · subst hjk
      have h2 : decide (j + 1 ≤ j) = false := decide_eq_false (by omega)
      have h3 : (if v > 1/2 then 1 <<< j else 0).testBit j = decide (v > 1/2) := by
        by_cases hv : v > 1/2
        · rw [if_pos hv, Nat.one_shiftLeft, Nat.testBit_two_pow_self]
          exact (decide_eq_true hv).symm
        · rw [if_neg hv, Nat.zero_testBit]
          exact (decide_eq_false hv).symm
      have h1 : decide (j ≤ j) = true := decide_eq_true (le_refl j)
      rw [h2, h3, Bool.false_and, Bool.or_false, h1, Bool.true_and, Nat.sub_self,
        List.getD_cons_zero]
    · have h1 : decide (k ≤ j) = true := decide_eq_true (Nat.le_of_lt hjk)
      have h2 : decide (k + 1 ≤ j) = true := decide_eq_true hjk
      have h3 : (if v > 1/2 then 1 <<< k else 0).testBit j = false := by
        by_cases hv : v > 1/2
        · rw [if_pos hv, Nat.one_shiftLeft]
          exact Nat.testBit_two_pow_of_ne (by omega)
        · rw [if_neg hv]
          exact Nat.zero_testBit j
      have h4 : j - k = (j - (k + 1)) + 1 := by omega
      rw [h1, h2, h3, Bool.true_and, Bool.true_and, Bool.false_or, h4, List.getD_cons_succ]

/-! ## Claims about the register -/

/-- **C8**: for every `width` and every `v < 2 ^ width`,
`NeuralRegister.from_symbolic width v |>.to_symbolic = v` under the bit-plane
mapping `bit i ↔ state[i] > 0.5`. -/
theorem claim_C8_symbolic_roundtrip (width v : Nat) (h : v < 2 ^ width) :
    (NeuralRegister.from_symbolic width v).to_symbolic = v := by
  have hstate : (NeuralRegister.from_symbolic width v).state =
      (List.range width).map (fun i => if (v >>> i) &&& 1 = 1 then (1 : ℚ) else 0) := by
    simp [NeuralRegister.from_symbolic, NeuralRegister.write, NeuralRegister.new]
  apply Nat.eq_of_testBit_eq
  intro j
  rw [NeuralRegister.to_symbolic, toSymAux_testBit, hstate]
  have hbit : ((v >>> j) &&& 1 = 1) ↔ (v.testBit j = true) := by
    simp [Nat.testBit_to_div_mod, Nat.and_one_is_mod, Nat.shiftRight_eq_div_pow]
  by_cases hj : j < width
  · have hget : ((List.range width).map
        (fun i => if (v >>> i) &&& 1 = 1 then (1 : ℚ) else 0)).getD (j - 0) 0 =
        (if (v >>> j) &&& 1 = 1 then (1 : ℚ) else 0) := by
      rw [List.getD, Nat.sub_zero]
      simp [List.getElem?_map, List.getElem?_range, hj]
    rw [hget]
    cases hb : v.testBit j
    · have hcond : ¬ ((v >>> j) &&& 1 = 1) := fun hc => by simp [hbit.mp hc] at hb
      have h0 : decide ((0 : ℚ) > 1/2) = false := decide_eq_false (by norm_num)
      rw [if_neg hcond, h0, Bool.and_false]
    · have hcond : (v >>> j) &&& 1 = 1 := hbit.mpr hb
      have h1 : decide ((1 : ℚ) > 1/2) = true := decide_eq_true (by norm_num)
      have hz : decide (0 ≤ j) = true := decide_eq_true (Nat.zero_le j)
      rw [if_pos hcond, h1, hz, Bool.true_and]
  · have hget : ((List.range width).map
        (fun i => if (v >>> i) &&& 1 = 1 then (1 : ℚ) else 0)).getD (j - 0) 0 = 0 := by
      rw [List.getD, Nat.sub_zero]
      have hlen : ((List.range width).map
          (fun i => if (v >>> i) &&& 1 = 1 then (1 : ℚ) else 0)).length ≤ j := by
        simp; omega
      rw [List.get?_eq_none.mpr hlen]
      rfl
    rw [hget]
    have hfb : v.testBit j = false := by
      apply Nat.testBit_eq_false_of_lt
      calc v < 2 ^ width := h
        _ ≤ 2 ^ j := Nat.pow_le_pow_right (by norm_num) (Nat.not_lt.mp hj)
    have h0 : decide ((0 : ℚ) > 1/2) = false := decide_eq_false (by norm_num)
    rw [h0, Bool.and_false, hfb]

/-- Witness for C8 at `width = 4`, `v = 11`. -/
theorem claim_C8_symbolic_roundtrip_witness :
    11 < 2 ^ 4 ∧ (NeuralRegister.from_symbolic 4 11).to_symbolic = 11 :=
  ⟨by decide, claim_C8_symbolic_roundtrip 4 11 (by decide)⟩

/-- **C9**: `NeuralRegister.write` replaces the state iff the written vector's
length equals the declared width, leaves the register completely unchanged on
a mismatch, and the invariant `state.length = width` is preserved by
construction, write, read and cleanup. -/
theorem claim_C9_write_invariant (r : NeuralRegister) (v : List ℚ) :
    ((r.write v).state = if v.length = r.width then v else r.state) ∧
    ((v.length = r.width → (r.write v).state = v) ∧
     (v.length ≠ r.width → r.write v = r)) ∧
    ((NeuralRegister.new r.width).state.length = r.width) ∧
    (r.state.length = r.width → (r.write v).state.length = (r.write v).width) ∧
    (r.state.length = r.width → (r.read).length = r.width) ∧
    (r.state.length = r.width → (r.cleanup).state.length = (r.cleanup).width) := by
  refine ⟨?_, ⟨?_, ?_⟩, ?_, ?_, ?_, ?_⟩
  · by_cases h : v.length = r.width <;> simp [NeuralRegister.write, h]
  · intro h; simp [NeuralRegister.write, h]
  · intro h; simp [NeuralRegister.write, h]
  · simp [NeuralRegister.new]
  · intro h
    by_cases hl : v.length = r.width <;> simp [NeuralRegister.write, hl, h]
  · intro h; simpa [NeuralRegister.read] using h
  · intro h; simp [NeuralRegister.cleanup, h]

/-- Witness for C9 at a concrete register and vectors of both matching and
mismatching length. -/
theorem claim_C9_write_invariant_witness :
    ((NeuralRegister.mk [0, 0] 2).write [1, 1]).state = [1, 1] ∧
    (NeuralRegister.mk [0, 0] 2).write [1] = NeuralRegister.mk [0, 0] 2 :=
  ⟨(claim_C9_write_invariant (NeuralRegister.mk [0, 0] 2) [1, 1]).2.1.1 (by decide),
   (claim_C9_write_invariant (NeuralRegister.mk [0, 0] 2) [1]).2.1.2 (by decide)⟩

/-! ## `src/fu.rs` — activations and the trainable `BaseFU`

`Array1<f32>` is a `List ℚ`, `Array2<f32>` a `List (List ℚ)` of rows.
`sig` and `tanq` are the scalar maps `1/(1+exp(-x))` and `tanh x`, abstract
here because the verified claims hold for every choice of these maps. -/

/-- `Array1::dot` of two vectors. -/
def dotL (a b : List ℚ) : ℚ := (List.zipWith (· * ·) a b).sum

/-- `Array2::dot(&Array1)`: matrix–vector product, row by row. -/
def matVec (M : List (List ℚ)) (x : List ℚ) : List ℚ := M.map (fun row => dotL row x)

/-- Elementwise vector addition (`ndarray`'s `+`). -/
def vecAdd (a b : List ℚ) : List ℚ := List.zipWith (· + ·) a b

/-- Elementwise vector subtraction (`ndarray`'s `-`). -/
def vecSub (a b : List ℚ) : List ℚ := List.zipWith (· - ·) a b

/-- Elementwise (Hadamard) vector product (`ndarray`'s `*`). -/
def vecMul (a b : List ℚ) : List ℚ := List.zipWith (· * ·) a b

/-- The column count of a row-list matrix (`Array2::shape()[1]`). -/
def ncolsOf (M : List (List ℚ)) : Nat := (M.headD []).length

/-- `M.t().dot(&v)`: transposed matrix–vector product; entry `j` is the dot
product of column `j` of `M` with `v`. -/
def matTvec (M : List (List ℚ)) (v : List ℚ) : List ℚ :=
  (List.range (ncolsOf M)).map (fun j => dotL (M.map (fun row => row.getD j 0)) v)

/-- `enum Activation { ReLU, Sigmoid, Tanh, Identity }` from `src/fu.rs`. -/
inductive Activation where
  | ReLU
  | Sigmoid
  | Tanh
  | Identity
  deriving DecidableEq, Repr

namespace Activation

/-- `Activation::apply`, mapped over the vector. -/
def apply (sig tanq : ℚ → ℚ) : Activation → List ℚ → List ℚ
  | ReLU, x => x.map (fun v => if v > 0 then v else 0)
  | Sigmoid, x => x.map sig
  | Tanh, x => x.map tanq
  | Identity, x => x

/-- `Activation::derivative`, evaluated at the pre-activation input:
`Sigmoid`/`Tanh` first re-apply the activation, then use the closed form. -/
def derivative (sig tanq : ℚ → ℚ) : Activation → List ℚ → List ℚ
  | ReLU, x => x.map (fun v => if v > 0 then (1 : ℚ) else 0)
  | Sigmoid, x => (apply sig tanq Sigmoid x).map (fun v => v * (1 - v))
  | Tanh, x => (apply sig tanq Tanh x).map (fun v => 1 - v * v)
  | Identity, x => List.replicate x.length 1

end Activation

/-- `BaseFU`: two affine layers plus the two activation tags. -/
structure BaseFU where
  w1 : List (List ℚ)
  b1 : List ℚ
  w2 : List (List ℚ)
  b2 : List ℚ
  active_hidden : Activation
  active_output : Activation
  deriving DecidableEq, Repr

namespace BaseFU

/-- `BaseFU::forward` (the `NeuralFunctionalUnit` impl): two affine layers
with the unit's activations; weights are left untouched. -/
def forward (sig tanq : ℚ → ℚ) (fu : BaseFU) (input : List ℚ) : List ℚ :=
  let h_pre := vecAdd (matVec fu.w1 input) fu.b1
  let h := fu.active_hidden.apply sig tanq h_pre
  let y_pre := vecAdd (matVec fu.w2 h) fu.b2
  fu.active_output.apply sig tanq y_pre

/-- `BaseFU::train_step`: single-sample SGD for MSE loss.  The two Rust
update loops write each of `b2[i]`, `w2[[i,j]]`, `b1[i]`, `w1[[i,j]]`
exactly once, so they are embedded as the pointwise `zipWith` updates.
`delta_1` is computed from `self.w2` *before* the `w2` update. -/
def train_step (sig tanq : ℚ → ℚ) (fu : BaseFU) (input target : List ℚ) (lr : ℚ) : BaseFU :=
  let h_pre := vecAdd (matVec fu.w1 input) fu.b1
  let h := fu.active_hidden.apply sig tanq h_pre
  let y_pre := vecAdd (matVec fu.w2 h) fu.b2
  let y := fu.active_output.apply sig tanq y_pre
  let error := vecSub y target
  let d_out := fu.active_output.derivative sig tanq y_pre
  let delta_2 := vecMul error d_out
  let d_hidden := fu.active_hidden.derivative sig tanq h_pre
  let delta_1 := vecMul (matTvec fu.w2 delta_2) d_hidden
  { fu with
    b2 := List.zipWith (fun b d => b - lr * d) fu.b2 delta_2
    w2 := List.zipWith (fun row d => List.zipWith (fun w hv => w - lr * d * hv) row h)
      fu.w2 delta_2
    b1 := List.zipWith (fun b d => b - lr * d) fu.b1 delta_1
    w1 := List.zipWith (fun row d => List.zipWith (fun w xv => w - lr * d * xv) row input)
      fu.w1 delta_1 }

end BaseFU

/-! ### Spec-side formulations for C5 (from the spec's words) -/

/-- Spec: `outer(u, v)`, the outer product matrix `u·vᵗ`. -/
def specOuter (u v : List ℚ) : List (List ℚ) :=
  u.map (fun ui => v.map (fun vj => ui * vj))

/-- Spec: `A -= lr · B`, elementwise on matrices. -/
def specMatSubScaled (A : List (List ℚ)) (lr : ℚ) (B : List (List ℚ)) : List (List ℚ) :=
  List.zipWith (fun ra rb => List.zipWith (fun a b => a - lr * b) ra rb) A B

/-- Spec: `a -= lr · b`, elementwise on vectors. -/
def specVecSubScaled (a : List ℚ) (lr : ℚ) (b : List ℚ) : List ℚ :=
  List.zipWith (fun x y => x - lr * y) a b

theorem zipWith_ext {α β γ : Type} (f g : α → β → γ) (h : ∀ a b, f a b = g a b)
    (l1 : List α) (l2 : List β) : List.zipWith f l1 l2 = List.zipWith g l1 l2 := by
  induction l1 generalizing l2 with
  | nil => simp
  | cons a rest ih =>
    cases l2 with
    | nil => simp
    | cons b rest2 => simp [h a b, ih]

theorem zipWith_outer_eq (w : List (List ℚ)) (d h : List ℚ) (lr : ℚ) :
    List.zipWith (fun row dd => List.zipWith (fun a hv => a - lr * dd * hv) row h) w d =
      specMatSubScaled w lr (specOuter d h) := by
  rw [specMatSubScaled, specOuter, List.zipWith_map_right]
  apply zipWith_ext
  intro row dd
  rw [List.zipWith_map_right]
  apply zipWith_ext
  intro a hv
  ring

/-- **C5**: `BaseFU::train_step` computes the forward pass
`h_pre = W1·x + b1`, `h = act_h(h_pre)`, `y_pre = W2·h + b2`,
`y = act_o(y_pre)`, then `error = y - t`,
`delta_out = error ⊙ act_o'(y_pre)`,
`delta_hidden = (W2ᵗ·delta_out) ⊙ act_h'(h_pre)` from the *pre-update* `W2`,
and updates exactly `W2 -= lr·outer(delta_out, h)`, `b2 -= lr·delta_out`,
`W1 -= lr·outer(delta_hidden, x)`, `b1 -= lr·delta_hidden`, where each
activation's derivative is evaluated at the pre-activation value
(Sigmoid: `s(x)(1-s(x))`; Tanh: `1-tanh(x)²`; ReLU: indicator of `x > 0`;
Identity: `1`). -/
theorem claim_C5_train_step (sig tanq : ℚ → ℚ) (fu : BaseFU) (x t : List ℚ) (lr : ℚ) :
    let h_pre := vecAdd (matVec fu.w1 x) fu.b1
    let h := fu.active_hidden.apply sig tanq h_pre
    let y_pre := vecAdd (matVec fu.w2 h) fu.b2
    let y := fu.active_output.apply sig tanq y_pre
    let error := vecSub y t
    let delta_out := vecMul error (fu.active_output.derivative sig tanq y_pre)
    let delta_hidden :=
      vecMul (matTvec fu.w2 delta_out) (fu.active_hidden.derivative sig tanq h_pre)
    (BaseFU.train_step sig tanq fu x t lr).w2 =
        specMatSubScaled fu.w2 lr (specOuter delta_out h) ∧
    (BaseFU.train_step sig tanq fu x t lr).b2 = specVecSubScaled fu.b2 lr delta_out ∧
    (BaseFU.train_step sig tanq fu x t lr).w1 =
        specMatSubScaled fu.w1 lr (specOuter delta_hidden x) ∧
    (BaseFU.train_step sig tanq fu x t lr).b1 = specVecSubScaled fu.b1 lr delta_hidden ∧
    (BaseFU.train_step sig tanq fu x t lr).active_hidden = fu.active_hidden ∧
    (BaseFU.train_step sig tanq fu x t lr).active_output = fu.active_output ∧
    (∀ z, Activation.derivative sig tanq Activation.Sigmoid z =
        z.map (fun a => sig a * (1 - sig a))) ∧
    (∀ z, Activation.derivative sig tanq Activation.Tanh z =
        z.map (fun a => 1 - tanq a * tanq a)) ∧
    (∀ z, Activation.derivative sig tanq Activation.ReLU z =
        z.map (fun a => if a > 0 then (1 : ℚ) else 0)) ∧
    (∀ z, Activation.derivative sig tanq Activation.Identity z =
        List.replicate z.length 1) := by
  refine ⟨?_, rfl, ?_, rfl, rfl, rfl, ?_, ?_, fun z => rfl, fun z => rfl⟩
  · exact zipWith_outer_eq fu.w2 _ _ lr
  · exact zipWith_outer_eq fu.w1 _ _ lr
  · intro z
    simp [Activation.derivative, Activation.apply, List.map_map]
  · intro z
    simp [Activation.derivative, Activation.apply, List.map_map]

/-! ## `src/fu.rs` — stateful functional units and the unit capability

The Rust trait object `Box<dyn NeuralFunctionalUnit>` is modelled by the
closed sum `FUnit` over the unit variants defined in the repository.
`u32` state is modelled as `Nat` reduced mod `2^32` where the Rust code
performs `u32` arithmetic. -/

/-- `ProgramCounterFU { pc: u32 }`. -/
structure ProgramCounterFU where
  pc : Nat
  deriving DecidableEq, Repr

/-- `LoadStoreFU { memory: HashMap<u32, Array1<f32>>, width: usize }`. -/
structure LoadStoreFU where
  memory : List (Nat × List ℚ)
  width : Nat
  deriving DecidableEq, Repr

/-- `StackPointerFU { sp: u32, stack: HashMap<u32, Array1<f32>>, width: usize }`. -/
structure StackPointerFU where
  sp : Nat
  stack : List (Nat × List ℚ)
  width : Nat
  deriving DecidableEq, Repr

/-- The binary address decode loop shared by `ProgramCounterFU::forward` and
`LoadStoreFU::forward`: `if v > 0.5 { addr |= 1 << i }` over the input —
the same iteration as `NeuralRegister::to_symbolic`. -/
def decodeAddr (input : List ℚ) : Nat := NeuralRegister.toSymAux 0 input

/-- Closed sum of the `NeuralFunctionalUnit` implementations in the sources
(`BaseFU`, `ProgramCounterFU`, `LoadStoreFU`, `StackPointerFU`). -/
inductive FUnit where
  | base (fu : BaseFU)
  | progCounter (u : ProgramCounterFU)
  | loadStore (u : LoadStoreFU)
  | stackPtr (u : StackPointerFU)
  deriving DecidableEq, Repr

namespace FUnit

/-- `NeuralFunctionalUnit::forward`, dispatching on the variant; returns the
unit's new state together with its output vector. -/
def forward (sig tanq : ℚ → ℚ) : FUnit → List ℚ → FUnit × List ℚ
  | base fu, input => (base fu, fu.forward sig tanq input)
  | progCounter _, input =>
      let addr := decodeAddr input % 2 ^ 32
      (progCounter ⟨addr⟩,
       (List.range 8).map (fun i => if (addr >>> i) &&& 1 = 1 then (1 : ℚ) else 0))
  | loadStore u, input =>
      let addr := decodeAddr input % 2 ^ 32
      (loadStore u,
       match amFind addr u.memory with
       | some val => val
       | none => List.replicate u.width 0)
  | stackPtr u, input =>
      let sp := (u.sp + (2 ^ 32 - 1)) % 2 ^ 32
      (stackPtr { u with sp := sp, stack := amInsert sp input u.stack }, input)

/-- `NeuralFunctionalUnit::tick`: default no-op; the program counter
increments its `pc` by one (`u32` arithmetic). -/
def tick : FUnit → FUnit
  | progCounter u => progCounter ⟨(u.pc + 1) % 2 ^ 32⟩
  | u => u

end FUnit

/-! ## `src/bus.rs` — `MoveOp` and `SystemBus` -/

/-- `MoveOp { src: u16, dest: u16, guard: Option<u16> }`. -/
structure MoveOp where
  src : Nat
  dest : Nat
  guard : Option Nat
  deriving DecidableEq, Repr

/-- `SystemBus`: registers `[0x0000,0x1000)`, functional units
`[0x1000,0x2000)`, RAM `[0x2000,0x8000)`, MMIO devices `[0x8000,0xFFFF]`,
plus the `(input, output)` inspection cache for triggered units. -/
structure SystemBus where
  registers : List (Nat × NeuralRegister)
  units : List (Nat × FUnit)
  ram : List (Nat × List ℚ)
  mmio : List (Nat × FUnit)
  fu_io_cache : List (Nat × (List ℚ × List ℚ))
  deriving DecidableEq, Repr

/-- Uppercase hexadecimal digit, as produced by Rust's `{:X}`. -/
def hexDigit (n : Nat) : Char :=
  if n < 10 then Char.ofNat (48 + n) else Char.ofNat (55 + n)

/-- Uppercase hexadecimal digit list, fuel-bounded structural recursion
(`fuel = n` always suffices because `n / 16 < n` for positive `n`). -/
def hexCharsAux : Nat → Nat → List Char
  | _, 0 => []
  | 0, _ + 1 => []
  | fuel + 1, n + 1 => hexCharsAux fuel ((n + 1) / 16) ++ [hexDigit ((n + 1) % 16)]

/-- Uppercase hexadecimal digit list of a positive number. -/
def hexChars (n : Nat) : List Char := hexCharsAux n n

/-- `format!("{:X}", n)`. -/
def hexStr (n : Nat) : String :=
  if n = 0 then "0" else String.mk (hexChars n)

/-- Models Rust's `format!("{:.1}", v)` (one decimal place).  The exact
tie-rounding behavior of float formatting is irrelevant here: no verified
claim inspects this portion of a status string. -/
def fmtOneDec (v : ℚ) : String :=
  let n : Int := round (v * 10)
  let a := n.natAbs
  (if n < 0 then "-" else "") ++ toString (a / 10) ++ "." ++ toString (a % 10)

/-- The per-activation rendering used in `SystemBus::execute`'s log line:
values within 0.1 of 1.0 print as "1", within 0.1 of 0.0 as "0", otherwise
with one decimal place. -/
def fmtActivation (v : ℚ) : String :=
  if |v - 1| < 1/10 then "1"
  else if |v| < 1/10 then "0"
  else fmtOneDec v

namespace SystemBus

/-- `SystemBus::new()`. -/
def new : SystemBus := ⟨[], [], [], [], []⟩

/-- `SystemBus::add_register`. -/
def add_register (bus : SystemBus) (addr : Nat) (width : Nat) : SystemBus :=
  { bus with registers := amInsert addr (NeuralRegister.new width) bus.registers }

/-- `SystemBus::add_unit`. -/
def add_unit (bus : SystemBus) (base_addr : Nat) (unit : FUnit) : SystemBus :=
  { bus with units := amInsert base_addr unit bus.units }

/-- `SystemBus::add_mmio`. -/
def add_mmio (bus : SystemBus) (addr : Nat) (device : FUnit) : SystemBus :=
  { bus with mmio := amInsert addr device bus.mmio }

/-- `SystemBus::read_mem`: decode the four address regions; registers and RAM
return their stored value; a present unit/device is *not* queried (reads of
those regions return the mock default); every unresolved path falls through
to the zero-filled default vector `Array1::zeros(8)`. -/
def read_mem (bus : SystemBus) (addr : Nat) : List ℚ :=
  if addr < 0x1000 then
    match amFind addr bus.registers with
    | some reg => reg.read
    | none => List.replicate 8 0
  else if addr < 0x2000 then
    List.replicate 8 0
  else if addr < 0x8000 then
    match amFind addr bus.ram with
    | some val => val
    | none => List.replicate 8 0
  else
    List.replicate 8 0

/-- `SystemBus::write_mem`: registers store via `NeuralRegister::write`;
writes into the unit/device regions invoke `forward` on the mapped unit and
cache `(input, output)`; the RAM region stores the vector verbatim; all
unresolved paths report `Unknown[0x{:X}]`. -/
def write_mem (sig tanq : ℚ → ℚ) (bus : SystemBus) (addr : Nat) (data : List ℚ) :
    String × SystemBus :=
  if addr < 0x1000 then
    match amFind addr bus.registers with
    | some reg =>
        ("R" ++ toString addr,
         { bus with registers := amInsert addr (reg.write data) bus.registers })
    | none => ("Unknown[0x" ++ hexStr addr ++ "]", bus)
  else if addr < 0x2000 then
    match amFind addr bus.units with
    | some unit =>
        let fo := FUnit.forward sig tanq unit data
        ("FU[0x" ++ hexStr addr ++ "]",
         { bus with units := amInsert addr fo.1 bus.units,
                    fu_io_cache := amInsert addr (data, fo.2) bus.fu_io_cache })
    | none => ("Unknown[0x" ++ hexStr addr ++ "]", bus)
  else if addr < 0x8000 then
    ("RAM[0x" ++ hexStr addr ++ "]", { bus with ram := amInsert addr data bus.ram })
  else
    match amFind addr bus.mmio with
    | some dev =>
        let fo := FUnit.forward sig tanq dev data
        ((if addr = 0x8000 then "UART" else "MMIO[0x" ++ hexStr addr ++ "]"),
         { bus with mmio := amInsert addr fo.1 bus.mmio,
                    fu_io_cache := amInsert addr (data, fo.2) bus.fu_io_cache })
    | none => ("Unknown[0x" ++ hexStr addr ++ "]", bus)

/-- Steps 1–3 of `SystemBus::execute` after the guard check: read the source,
write the destination, format the `Moved … to …` status line (the Rust code
reaches this straight-line tail whenever the guard does not skip). -/
def do_move (sig tanq : ℚ → ℚ) (bus : SystemBus) (op : MoveOp) : String × SystemBus :=
  let data := bus.read_mem op.src
  let wr := write_mem sig tanq bus op.dest data
  let vec_str := (data.take 8).map fmtActivation
  ("Moved [" ++ String.intercalate ", " vec_str ++ "] to " ++ wr.1, wr.2)

/-- `SystemBus::execute`: check the guard first — if `op.guard` is set and the
first activation of the guard location is ≤ 0.5, return `Skipped (Guard Low)`
without touching any state; otherwise move source to destination. -/
def execute (sig tanq : ℚ → ℚ) (bus : SystemBus) (op : MoveOp) : String × SystemBus :=
  match op.guard with
  | some guard_addr =>
      if (bus.read_mem guard_addr).headD 0 ≤ 1/2 then
        ("Skipped (Guard Low)", bus)
      else
        do_move sig tanq bus op
  | none => do_move sig tanq bus op

/-- `SystemBus::tick_all`: tick every unit, then every device, in mapping
order. -/
def tick_all (bus : SystemBus) : SystemBus :=
  { bus with units := bus.units.map (fun p => (p.1, p.2.tick)),
             mmio := bus.mmio.map (fun p => (p.1, p.2.tick)) }

end SystemBus

/-! ## `src/system.rs` — `SystemEmulator` -/

/-- `SystemEmulator`: bus, program ROM, array-index `pc`, step statistics and
log.  The shared console sink (`Arc<Mutex<String>>`) is modelled as a plain
string; `step` never touches it. -/
structure SystemEmulator where
  bus : SystemBus
  program : List MoveOp
  pc : Nat
  total_steps : Nat
  logs : List String
  console_sink : String
  deriving DecidableEq, Repr

namespace SystemEmulator

/-- `SystemEmulator::new(bus)`. -/
def new (bus : SystemBus) : SystemEmulator :=
  { bus := bus, program := [], pc := 0, total_steps := 0, logs := [], console_sink := "" }

/-- `SystemEmulator::load_program`. -/
def load_program (em : SystemEmulator) (prog : List MoveOp) : SystemEmulator :=
  { em with program := prog }

/-- `SystemEmulator::step`: halted (return `false`, no state change) iff
`pc ≥ program.len()`; otherwise execute `program[pc]`, push one log entry
tagged `[Step total_steps | PC pc]`, tick all units, then increment `pc` and
`total_steps` and return `true`. -/
def step (sig tanq : ℚ → ℚ) (em : SystemEmulator) : Bool × SystemEmulator :=
  if em.pc ≥ em.program.length then
    (false, em)
  else
    let op := em.program.getD em.pc ⟨0, 0, none⟩
    let r := em.bus.execute sig tanq op
    let logs' := em.logs ++
      ["[Step " ++ toString em.total_steps ++ " | PC " ++ toString em.pc ++ "] " ++ r.1]
    let bus' := r.2.tick_all
    (true, { em with bus := bus', logs := logs', pc := em.pc + 1,
                     total_steps := em.total_steps + 1 })

end SystemEmulator

/-! ## Claims about the bus dispatcher and the emulator loop -/

/-- **C1**: for every move with `op.guard` set, `SystemBus::execute` reads the
guard location first; if the first activation is ≤ 0.5 it returns the
`Skipped (Guard Low)` status with the entire bus (registers, RAM, units,
devices, IO cache) unchanged; if it is > 0.5 the move proceeds: the result
bus is exactly the destination write of the source read, and a mapped
destination register of matching width ends up holding the source value. -/
theorem claim_C1_guard_semantics (sig tanq : ℚ → ℚ) (bus : SystemBus) (op : MoveOp)
    (g : Nat) (hg : op.guard = some g) :
    ((bus.read_mem g).headD 0 ≤ 1/2 →
      SystemBus.execute sig tanq bus op = ("Skipped (Guard Low)", bus)) ∧
    ((bus.read_mem g).headD 0 > 1/2 →
      ((SystemBus.execute sig tanq bus op).2 =
        (SystemBus.write_mem sig tanq bus op.dest (bus.read_mem op.src)).2 ∧
       ∀ r : NeuralRegister, op.dest < 0x1000 →
         amFind op.dest bus.registers = some r →
         (bus.read_mem op.src).length = r.width →
         amFind op.dest (SystemBus.execute sig tanq bus op).2.registers =
           some { r with state := bus.read_mem op.src })) := by
  have hex : SystemBus.execute sig tanq bus op =
      if (bus.read_mem g).headD 0 ≤ 1/2 then ("Skipped (Guard Low)", bus)
      else SystemBus.do_move sig tanq bus op := by
    simp only [SystemBus.execute, hg]
  constructor
  · intro hle
    rw [hex, if_pos hle]
  · intro hgt
    have hnle : ¬ ((bus.read_mem g).headD 0 ≤ 1/2) := not_le.mpr hgt
    constructor
    · rw [hex, if_neg hnle]
      rfl
    · intro r hdest hr hlen
      rw [hex, if_neg hnle]
      have hdm : (SystemBus.do_move sig tanq bus op).2 =
          (SystemBus.write_mem sig tanq bus op.dest (bus.read_mem op.src)).2 := rfl
      rw [hdm]
      have hw : (SystemBus.write_mem sig tanq bus op.dest (bus.read_mem op.src)).2.registers =
          amInsert op.dest (r.write (bus.read_mem op.src)) bus.registers := by
        simp [SystemBus.write_mem, hdest, hr]
      rw [hw, amFind_amInsert_self, NeuralRegister.write, if_pos hlen]

/-- Witness for C1: the spec's own guard scenario — source register holding
1.0, destination 0.0, guard register at 0.0 skips and leaves the bus alone;
guard at 1.0 copies the source into the destination. -/
theorem claim_C1_guard_semantics_witness :
    (SystemBus.execute (fun x => x) (fun x => x)
        (SystemBus.mk [(0, ⟨[1], 1⟩), (1, ⟨[0], 1⟩), (2, ⟨[0], 1⟩)] [] [] [] [])
        ⟨0, 1, some 2⟩ =
      ("Skipped (Guard Low)",
       SystemBus.mk [(0, ⟨[1], 1⟩), (1, ⟨[0], 1⟩), (2, ⟨[0], 1⟩)] [] [] [] [])) ∧
    (amFind 1 ((SystemBus.execute (fun x => x) (fun x => x)
        (SystemBus.mk [(0, ⟨[1], 1⟩), (1, ⟨[0], 1⟩), (2, ⟨[1], 1⟩)] [] [] [] [])
        ⟨0, 1, some 2⟩).2.registers) = some ⟨[1], 1⟩) :=
  ⟨(claim_C1_guard_semantics (fun x => x) (fun x => x)
      (SystemBus.mk [(0, ⟨[1], 1⟩), (1, ⟨[0], 1⟩), (2, ⟨[0], 1⟩)] [] [] [] [])
      ⟨0, 1, some 2⟩ 2 rfl).1
      (by norm_num [SystemBus.read_mem, amFind, NeuralRegister.read]),
   ((claim_C1_guard_semantics (fun x => x) (fun x => x)
      (SystemBus.mk [(0, ⟨[1], 1⟩), (1, ⟨[0], 1⟩), (2, ⟨[1], 1⟩)] [] [] [] [])
      ⟨0, 1, some 2⟩ 2 rfl).2
      (by norm_num [SystemBus.read_mem, amFind, NeuralRegister.read])).2 ⟨[0], 1⟩
      (by norm_num) rfl
      (by norm_num [SystemBus.read_mem, amFind, NeuralRegister.read])⟩

/-- **C2**: bus writes dispatch by the four fixed, disjoint 16-bit ranges:
`[0x0000,0x1000)` updates the mapped register (all other maps untouched),
`[0x1000,0x2000)` invokes the mapped unit's `forward` with the written vector
and caches `(input, output)`, `[0x2000,0x8000)` stores the vector verbatim in
RAM, and `[0x8000,…]` invokes the mapped device's `forward`. -/
theorem claim_C2_address_dispatch (sig tanq : ℚ → ℚ) (bus : SystemBus) (addr : Nat)
    (data : List ℚ) :
    (∀ r, addr < 0x1000 → amFind addr bus.registers = some r →
      (SystemBus.write_mem sig tanq bus addr data).1 = "R" ++ toString addr ∧
      amFind addr (SystemBus.write_mem sig tanq bus addr data).2.registers =
        some (r.write data) ∧
      (SystemBus.write_mem sig tanq bus addr data).2.units = bus.units ∧
      (SystemBus.write_mem sig tanq bus addr data).2.ram = bus.ram ∧
      (SystemBus.write_mem sig tanq bus addr data).2.mmio = bus.mmio ∧
      (SystemBus.write_mem sig tanq bus addr data).2.fu_io_cache = bus.fu_io_cache) ∧
    (∀ u, 0x1000 ≤ addr → addr < 0x2000 → amFind addr bus.units = some u →
      (SystemBus.write_mem sig tanq bus addr data).1 = "FU[0x" ++ hexStr addr ++ "]" ∧
      amFind addr (SystemBus.write_mem sig tanq bus addr data).2.units =
        some (FUnit.forward sig tanq u data).1 ∧
      amFind addr (SystemBus.write_mem sig tanq bus addr data).2.fu_io_cache =
        some (data, (FUnit.forward sig tanq u data).2) ∧
      (SystemBus.write_mem sig tanq bus addr data).2.registers = bus.registers ∧
      (SystemBus.write_mem sig tanq bus addr data).2.ram = bus.ram ∧
      (SystemBus.write_mem sig tanq bus addr data).2.mmio = bus.mmio) ∧
    (0x2000 ≤ addr → addr < 0x8000 →
      (SystemBus.write_mem sig tanq bus addr data).1 = "RAM[0x" ++ hexStr addr ++ "]" ∧
      amFind addr (SystemBus.write_mem sig tanq bus addr data).2.ram = some data ∧
      (SystemBus.write_mem sig tanq bus addr data).2.registers = bus.registers ∧
      (SystemBus.write_mem sig tanq bus addr data).2.units = bus.units ∧
      (SystemBus.write_mem sig tanq bus addr data).2.mmio = bus.mmio ∧
      (SystemBus.write_mem sig tanq bus addr data).2.fu_io_cache = bus.fu_io_cache) ∧
    (∀ dv, 0x8000 ≤ addr → amFind addr bus.mmio = some dv →
      (SystemBus.write_mem sig tanq bus addr data).1 =
        (if addr = 0x8000 then "UART" else "MMIO[0x" ++ hexStr addr ++ "]") ∧
      amFind addr (SystemBus.write_mem sig tanq bus addr data).2.mmio =
        some (FUnit.forward sig tanq dv data).1 ∧
      amFind addr (SystemBus.write_mem sig tanq bus addr data).2.fu_io_cache =
        some (data, (FUnit.forward sig tanq dv data).2) ∧
      (SystemBus.write_mem sig tanq bus addr data).2.registers = bus.registers ∧
      (SystemBus.write_mem sig tanq bus addr data).2.units = bus.units ∧
      (SystemBus.write_mem sig tanq bus addr data).2.ram = bus.ram) := by
  refine ⟨?_, ?_, ?_, ?_⟩
  · intro r h1 h2
    simp [SystemBus.write_mem, h1, h2, amFind_amInsert_self]
  · intro u h1 h2 h3
    have hn1 : ¬ (addr < 0x1000) := by omega
    simp [SystemBus.write_mem, hn1, h2, h3, amFind_amInsert_self]
  · intro h1 h2
    have hn1 : ¬ (addr < 0x1000) := by omega
    have hn2 : ¬ (addr < 0x2000) := by omega
    simp [SystemBus.write_mem, hn1, hn2, h2, amFind_amInsert_self]
  · intro dv h1 h2
    have hn1 : ¬ (addr < 0x1000) := by omega
    have hn2 : ¬ (addr < 0x2000) := by omega
    have hn3 : ¬ (addr < 0x8000) := by omega
    simp [SystemBus.write_mem, hn1, hn2, hn3, h2, amFind_amInsert_self]

/-- A concrete bus populated at the address-region boundaries, for the C2
witness. -/
def busC2 : SystemBus :=
  SystemBus.mk [(0x0FFF, ⟨[0], 1⟩)]
    [(0x1000, FUnit.loadStore ⟨[], 1⟩), (0x1FFF, FUnit.loadStore ⟨[], 1⟩)]
    [] [(0x8000, FUnit.loadStore ⟨[], 1⟩)] []

/-- Witness for C2 at the boundary addresses `0x0FFF`, `0x1000`, `0x1FFF`,
`0x2000`, `0x7FFF` and `0x8000`. -/
theorem claim_C2_address_dispatch_witness :
    (amFind 0x0FFF
        ((SystemBus.write_mem (fun x => x) (fun x => x) busC2 0x0FFF [1]).2.registers) =
      some (NeuralRegister.write ⟨[0], 1⟩ [1])) ∧
    ((SystemBus.write_mem (fun x => x) (fun x => x) busC2 0x1000 [1]).1 =
      "FU[0x" ++ hexStr 0x1000 ++ "]") ∧
    ((SystemBus.write_mem (fun x => x) (fun x => x) busC2 0x1FFF [1]).1 =
      "FU[0x" ++ hexStr 0x1FFF ++ "]") ∧
    (amFind 0x2000 ((SystemBus.write_mem (fun x => x) (fun x => x) busC2 0x2000 [1]).2.ram) =
      some [1]) ∧
    ((SystemBus.write_mem (fun x => x) (fun x => x) busC2 0x7FFF [1]).1 =
      "RAM[0x" ++ hexStr 0x7FFF ++ "]") ∧
    ((SystemBus.write_mem (fun x => x) (fun x => x) busC2 0x8000 [1]).1 =
      (if (0x8000 : Nat) = 0x8000 then "UART"
       else "MMIO[0x" ++ hexStr 0x8000 ++ "]")) :=
  ⟨((claim_C2_address_dispatch (fun x => x) (fun x => x) busC2 0x0FFF [1]).1
      ⟨[0], 1⟩ (by norm_num) rfl).2.1,
   ((claim_C2_address_dispatch (fun x => x) (fun x => x) busC2 0x1000 [1]).2.1
      (FUnit.loadStore ⟨[], 1⟩) (by norm_num) (by norm_num) rfl).1,
   ((claim_C2_address_dispatch (fun x => x) (fun x => x) busC2 0x1FFF [1]).2.1
      (FUnit.loadStore ⟨[], 1⟩) (by norm_num) (by norm_num) rfl).1,
   ((claim_C2_address_dispatch (fun x => x) (fun x => x) busC2 0x2000 [1]).2.2.1
      (by norm_num) (by norm_num)).2.1,
   ((claim_C2_address_dispatch (fun x => x) (fun x => x) busC2 0x7FFF [1]).2.2.1
      (by norm_num) (by norm_num)).1,
   ((claim_C2_address_dispatch (fun x => x) (fun x => x) busC2 0x8000 [1]).2.2.2
      (FUnit.loadStore ⟨[], 1⟩) (by norm_num) rfl).1⟩

/-- **C3**: `SystemEmulator::step` returns `false` iff `pc ≥ program.len()`,
in which case the emulator is completely unchanged; otherwise it executes
`program[pc]` through the bus, ticks all units, appends exactly one log entry
tagged with the running step count and the current pc, increments `pc` and
the step counter by one, and returns `true`. -/
theorem claim_C3_step (sig tanq : ℚ → ℚ) (em : SystemEmulator) :
    (((SystemEmulator.step sig tanq em).1 = false) ↔ em.program.length ≤ em.pc) ∧
    (em.program.length ≤ em.pc → (SystemEmulator.step sig tanq em).2 = em) ∧
    (∀ h : em.pc < em.program.length,
      (SystemEmulator.step sig tanq em).1 = true ∧
      (SystemEmulator.step sig tanq em).2.pc = em.pc + 1 ∧
      (SystemEmulator.step sig tanq em).2.total_steps = em.total_steps + 1 ∧
      (SystemEmulator.step sig tanq em).2.logs = em.logs ++
        ["[Step " ++ toString em.total_steps ++ " | PC " ++ toString em.pc ++ "] " ++
          (em.bus.execute sig tanq (em.program.get ⟨em.pc, h⟩)).1] ∧
      (SystemEmulator.step sig tanq em).2.bus =
        ((em.bus.execute sig tanq (em.program.get ⟨em.pc, h⟩)).2).tick_all ∧
      (SystemEmulator.step sig tanq em).2.program = em.program ∧
      (SystemEmulator.step sig tanq em).2.console_sink = em.console_sink) := by
  by_cases hh : em.program.length ≤ em.pc
  · refine ⟨by simp [SystemEmulator.step, hh], fun _ => by simp [SystemEmulator.step, hh],
      fun h => absurd h (by omega)⟩
  · have hlt : em.pc < em.program.length := by omega
    have hop : (em.program[em.pc]?).getD (⟨0, 0, none⟩ : MoveOp) =
        em.program.get ⟨em.pc, hlt⟩ := by
      rw [List.getElem?_eq_getElem hlt]
      rfl
    refine ⟨by simp [SystemEmulator.step, hh], fun hc => absurd hc (by omega), fun h => ?_⟩
    refine ⟨by simp [SystemEmulator.step, hh], ?_, ?_, ?_, ?_, ?_, ?_⟩ <;>
      simp [SystemEmulator.step, hh, hop]

/-- Witness for C3: a one-instruction program steps once (pc 0 → 1, one log
entry) and a stepped-out emulator halts with no state change. -/
theorem claim_C3_step_witness :
    ((SystemEmulator.step (fun x => x) (fun x => x)
        (SystemEmulator.mk SystemBus.new [⟨0, 1, none⟩] 0 0 [] "")).1 = true ∧
     (SystemEmulator.step (fun x => x) (fun x => x)
        (SystemEmulator.mk SystemBus.new [⟨0, 1, none⟩] 0 0 [] "")).2.pc = 1) ∧
    (SystemEmulator.step (fun x => x) (fun x => x)
        (SystemEmulator.mk SystemBus.new [] 3 7 [] "")).2 =
      SystemEmulator.mk SystemBus.new [] 3 7 [] "" :=
  ⟨⟨((claim_C3_step (fun x => x) (fun x => x)
        (SystemEmulator.mk SystemBus.new [⟨0, 1, none⟩] 0 0 [] "")).2.2 (by norm_num)).1,
    ((claim_C3_step (fun x => x) (fun x => x)
        (SystemEmulator.mk SystemBus.new [⟨0, 1, none⟩] 0 0 [] "")).2.2 (by norm_num)).2.1⟩,
   (claim_C3_step (fun x => x) (fun x => x)
        (SystemEmulator.mk SystemBus.new [] 3 7 [] "")).2.1 (by norm_num)⟩

/-! ## C4 and C10: unresolved addresses and unmapped guards -/

/-- An address that is not present in any populated bus map. -/
def NotMappedAddr (bus : SystemBus) (a : Nat) : Prop :=
  amFind a bus.registers = none ∧ amFind a bus.units = none ∧
  amFind a bus.ram = none ∧ amFind a bus.mmio = none

/-- Reads of an address that is mapped neither as a register nor as RAM fall
through to the zero-filled default vector `Array1::zeros(8)`. -/
theorem read_mem_zero_of_unmapped (bus : SystemBus) (a : Nat)
    (h1 : amFind a bus.registers = none) (h3 : amFind a bus.ram = none) :
    bus.read_mem a = List.replicate 8 0 := by
  simp only [SystemBus.read_mem]
  split_ifs <;> simp [h1, h3]

/-- **C4, as stated** is false: `0x2000` is not present in any map of the
freshly constructed bus, yet a write there is *not* reported as an unknown
region — it is reported as `RAM[0x2000]` and stores the vector. -/
theorem claim_C4_counterexample :
    NotMappedAddr SystemBus.new 0x2000 ∧
    (SystemBus.write_mem (fun x => x) (fun x => x) SystemBus.new 0x2000 [1]).1 =
      "RAM[0x2000]" ∧
    (SystemBus.write_mem (fun x => x) (fun x => x) SystemBus.new 0x2000 [1]).1 ≠
      "Unknown[0x2000]" ∧
    amFind 0x2000
      ((SystemBus.write_mem (fun x => x) (fun x => x) SystemBus.new 0x2000 [1]).2.ram) =
      some [1] := by
  refine ⟨⟨rfl, rfl, rfl, rfl⟩, ?_, ?_, ?_⟩
  · rfl
  · decide
  · rfl

/-- **C4, amended**: for every address not present in any populated bus map,
a read yields the zero-filled default vector; a write *outside the RAM range*
is reported as `Unknown[0x…]` without failing and changes nothing, while a
write in the RAM range `[0x2000,0x8000)` stores the vector verbatim (reported
as `RAM[0x…]`); in every case the bus call returns normally and a step
containing such an address completes and advances the program counter. -/
theorem claim_C4_soft_miss (sig tanq : ℚ → ℚ) (bus : SystemBus) (addr : Nat)
    (data : List ℚ) :
    (NotMappedAddr bus addr → bus.read_mem addr = List.replicate 8 0) ∧
    (NotMappedAddr bus addr → (addr < 0x2000 ∨ 0x8000 ≤ addr) →
      SystemBus.write_mem sig tanq bus addr data =
        ("Unknown[0x" ++ hexStr addr ++ "]", bus)) ∧
    (0x2000 ≤ addr → addr < 0x8000 →
      SystemBus.write_mem sig tanq bus addr data =
        ("RAM[0x" ++ hexStr addr ++ "]", { bus with ram := amInsert addr data bus.ram })) ∧
    (∀ em : SystemEmulator, em.pc < em.program.length →
      (SystemEmulator.step sig tanq em).1 = true ∧
      (SystemEmulator.step sig tanq em).2.pc = em.pc + 1) := by
  refine ⟨?_, ?_, ?_, ?_⟩
  · intro hnm
    exact read_mem_zero_of_unmapped bus addr hnm.1 hnm.2.2.1
  · rintro ⟨h1, h2, _, h4⟩ hrange
    rcases hrange with hlt | hge
    · by_cases c1 : addr < 0x1000
      · simp [SystemBus.write_mem, c1, h1]
      · simp [SystemBus.write_mem, c1, hlt, h2]
    · have c1 : ¬ (addr < 0x1000) := by omega
      have c2 : ¬ (addr < 0x2000) := by omega
      have c3 : ¬ (addr < 0x8000) := by omega
      simp [SystemBus.write_mem, c1, c2, c3, h4]
  · intro hge hlt
    have c1 : ¬ (addr < 0x1000) := by omega
    have c2 : ¬ (addr < 0x2000) := by omega
    simp [SystemBus.write_mem, c1, c2, hlt]
  · intro em h
    have hh : ¬ (em.program.length ≤ em.pc) := by omega
    constructor <;> simp [SystemEmulator.step, hh]

/-- Witness for C4 (amended) at the unmapped non-RAM address `0x1234`, the
unmapped RAM address `0x3000`, and a one-instruction emulator whose move
touches only unmapped addresses. -/
theorem claim_C4_soft_miss_witness :
    SystemBus.new.read_mem 0x1234 = List.replicate 8 0 ∧
    (SystemBus.write_mem (fun x => x) (fun x => x) SystemBus.new 0x1234 [1]) =
      ("Unknown[0x" ++ hexStr 0x1234 ++ "]", SystemBus.new) ∧
    (SystemBus.write_mem (fun x => x) (fun x => x) SystemBus.new 0x3000 [1]) =
      ("RAM[0x" ++ hexStr 0x3000 ++ "]",
       { SystemBus.new with ram := amInsert 0x3000 [1] SystemBus.new.ram }) ∧
    (SystemEmulator.step (fun x => x) (fun x => x)
        (SystemEmulator.mk SystemBus.new [⟨0x1234, 0x1234, none⟩] 0 0 [] "")).1 = true ∧
    (SystemEmulator.step (fun x => x) (fun x => x)
        (SystemEmulator.mk SystemBus.new [⟨0x1234, 0x1234, none⟩] 0 0 [] "")).2.pc = 1 :=
  ⟨(claim_C4_soft_miss (fun x => x) (fun x => x) SystemBus.new 0x1234 [1]).1
      ⟨rfl, rfl, rfl, rfl⟩,
   (claim_C4_soft_miss (fun x => x) (fun x => x) SystemBus.new 0x1234 [1]).2.1
      ⟨rfl, rfl, rfl, rfl⟩ (Or.inl (by norm_num)),
   (claim_C4_soft_miss (fun x => x) (fun x => x) SystemBus.new 0x3000 [1]).2.2.1
      (by norm_num) (by norm_num),
   ((claim_C4_soft_miss (fun x => x) (fun x => x) SystemBus.new 0 []).2.2.2
      (SystemEmulator.mk SystemBus.new [⟨0x1234, 0x1234, none⟩] 0 0 [] "")
      (by norm_num)).1,
   ((claim_C4_soft_miss (fun x => x) (fun x => x) SystemBus.new 0 []).2.2.2
      (SystemEmulator.mk SystemBus.new [⟨0x1234, 0x1234, none⟩] 0 0 [] "")
      (by norm_num)).2⟩

/-- **C10**: when a move's guard address is not present in the register or
RAM maps (reads of the unit/device regions always yield the default), or the
guard register holds an empty vector, the guard read defaults to zeros, so
`execute` always skips the move and leaves the whole bus unchanged — such a
guard permanently disables its move. -/
theorem claim_C10_unmapped_guard (sig tanq : ℚ → ℚ) (bus : SystemBus) (op : MoveOp)
    (g : Nat) (hg : op.guard = some g)
    (hcase : (amFind g bus.registers = none ∧ amFind g bus.ram = none) ∨
      (g < 0x1000 ∧ ∃ r, amFind g bus.registers = some r ∧ r.state = ([] : List ℚ))) :
    SystemBus.execute sig tanq bus op = ("Skipped (Guard Low)", bus) := by
  have hzero : (bus.read_mem g).headD 0 ≤ 1/2 := by
    rcases hcase with ⟨h1, h2⟩ | ⟨hlt, r, hr, hs⟩
    · rw [read_mem_zero_of_unmapped bus g h1 h2]
      show (0 : ℚ) ≤ 1/2
      norm_num
    · have hre : bus.read_mem g = [] := by
        simp [SystemBus.read_mem, hlt, hr, NeuralRegister.read, hs]
      rw [hre]
      show (0 : ℚ) ≤ 1/2
      norm_num
  simp only [SystemBus.execute, hg]
  rw [if_pos hzero]

/-- Witness for C10: a guard pointing at the unpopulated address `0x3000`
skips, and a guard register holding an empty vector skips. -/
theorem claim_C10_unmapped_guard_witness :
    SystemBus.execute (fun x => x) (fun x => x) SystemBus.new ⟨0, 1, some 0x3000⟩ =
      ("Skipped (Guard Low)", SystemBus.new) ∧
    SystemBus.execute (fun x => x) (fun x => x)
        (SystemBus.mk [(5, ⟨[], 0⟩)] [] [] [] []) ⟨0, 1, some 5⟩ =
      ("Skipped (Guard Low)", SystemBus.mk [(5, ⟨[], 0⟩)] [] [] [] []) :=
  ⟨claim_C10_unmapped_guard (fun x => x) (fun x => x) SystemBus.new ⟨0, 1, some 0x3000⟩
      0x3000 rfl (Or.inl ⟨rfl, rfl⟩),
   claim_C10_unmapped_guard (fun x => x) (fun x => x)
      (SystemBus.mk [(5, ⟨[], 0⟩)] [] [] [] []) ⟨0, 1, some 5⟩ 5 rfl
      (Or.inr ⟨by norm_num, ⟨[], 0⟩, rfl, rfl⟩)⟩

/-! ## `src/legacy/gate.rs` and `src/legacy/circuit.rs`

The circuit evaluator recurses through the connection graph; Rust performs
unbounded recursion (and diverges on a cyclic graph).  The embedding bounds
the recursion depth with an explicit `fuel` argument, spending one unit per
nested `resolve_gate_output` call; `forward` starts from `gates.length + 1`,
which is sufficient for every acyclic reachable subgraph because a chain of
nested resolutions never repeats a gate.  The per-gate input-building loop is
factored out as `build_gate_inputs`, parametrized by the recursive resolver,
so that both functions are structurally recursive. -/

namespace legacy

/-- `enum Activation { ReLU, Sigmoid, Step, Identity }` from
`src/legacy/gate.rs`. -/
inductive Activation where
  | ReLU
  | Sigmoid
  | Step
  | Identity
  deriving DecidableEq, Repr

/-- `legacy::gate::Activation::apply`: `Step` thresholds at 0.5. -/
def Activation.apply (sig : ℚ → ℚ) : Activation → List ℚ → List ℚ
  | Activation.ReLU, x => x.map (fun v => if v > 0 then v else 0)
  | Activation.Sigmoid, x => x.map sig
  | Activation.Step, x => x.map (fun v => if v > 1/2 then (1 : ℚ) else 0)
  | Activation.Identity, x => x

/-- `NeuralGate`: two affine layers with the two activation tags. -/
structure NeuralGate where
  w1 : List (List ℚ)
  b1 : List ℚ
  w2 : List (List ℚ)
  b2 : List ℚ
  activation_hidden : Activation
  activation_output : Activation
  deriving DecidableEq, Repr

/-- `NeuralGate::forward`. -/
def NeuralGate.forward (sig : ℚ → ℚ) (g : NeuralGate) (inputs : List ℚ) : List ℚ :=
  let h_pre := vecAdd (matVec g.w1 inputs) g.b1
  let h := g.activation_hidden.apply sig h_pre
  let y_pre := vecAdd (matVec g.w2 h) g.b2
  g.activation_output.apply sig y_pre

/-- `NeuralCircuit`: gates keyed by id, a connection map
`(dest_gate, dest_input) → (source_gate_or_none, source_output)` where `none`
denotes a circuit-level input, the declared input size, and the output list. -/
structure NeuralCircuit where
  gates : List (Nat × NeuralGate)
  connections : List ((Nat × Nat) × (Option Nat × Nat))
  input_size : Nat
  output_mapping : List (Nat × Nat)
  next_gate_id : Nat
  deriving DecidableEq, Repr

namespace NeuralCircuit

/-- `NeuralCircuit::new`. -/
def new (input_size : Nat) : NeuralCircuit :=
  { gates := [], connections := [], input_size := input_size,
    output_mapping := [], next_gate_id := 0 }

/-- `NeuralCircuit::add_gate`. -/
def add_gate (c : NeuralCircuit) (gate : NeuralGate) : Nat × NeuralCircuit :=
  (c.next_gate_id,
   { c with gates := amInsert c.next_gate_id gate c.gates,
            next_gate_id := c.next_gate_id + 1 })

/-- `NeuralCircuit::connect`. -/
def connect (c : NeuralCircuit) (source_gate_id : Option Nat) (source_output_idx : Nat)
    (dest_gate_id : Nat) (dest_input_idx : Nat) : NeuralCircuit :=
  { c with connections :=
      (amInsert (dest_gate_id, dest_input_idx) (source_gate_id, source_output_idx)
        c.connections) }

/-- `NeuralCircuit::set_output`. -/
def set_output (c : NeuralCircuit) (source_gate_id : Nat) (source_output_idx : Nat) :
    NeuralCircuit :=
  { c with output_mapping := c.output_mapping ++ [(source_gate_id, source_output_idx)] }

end NeuralCircuit

/-- The memo map `gate_outputs : HashMap<usize, Array1<f32>>`. -/
def Memo : Type := List (Nat × List ℚ)

/-- The `for i in 0..n_inputs` loop of `resolve_gate_output`, building the
gate's input vector: a connected input resolves its source (recursively via
`recurse`, threading the memo), a circuit-input connection indexes the
circuit inputs (erroring when out of bounds), and a missing connection
defaults the entry to 0.0. -/
def build_gate_inputs (c : NeuralCircuit) (ins : List ℚ)
    (recurse : Nat → Nat → Memo → Except String (ℚ × Memo)) (gate_id : Nat) :
    List Nat → Memo → Except String (List ℚ × Memo)
  | [], memo => Except.ok ([], memo)
  | i :: rest, memo =>
    match amFind (gate_id, i) c.connections with
    | some (some src_id, src_out_idx) =>
        match recurse src_id src_out_idx memo with
        | Except.error e => Except.error e
        | Except.ok (v, memo1) =>
            match build_gate_inputs c ins recurse gate_id rest memo1 with
            | Except.error e => Except.error e
            | Except.ok (vs, memo2) => Except.ok (v :: vs, memo2)
    | some (none, src_out_idx) =>
        match ins.get? src_out_idx with
        | some v =>
            match build_gate_inputs c ins recurse gate_id rest memo with
            | Except.error e => Except.error e
            | Except.ok (vs, memo2) => Except.ok (v :: vs, memo2)
        | none => Except.error "Circuit input index out of bounds"
    | none =>
        match build_gate_inputs c ins recurse gate_id rest memo with
        | Except.error e => Except.error e
        | Except.ok (vs, memo2) => Except.ok ((0 : ℚ) :: vs, memo2)

/-- `NeuralCircuit::resolve_gate_output`: memo hit returns the cached output
vector entry (erroring on a bad output index); otherwise look up the gate
(erroring when missing), build its input vector (gate input arity is
`w1.shape()[1]`), run the gate's forward pass, memoize the entire output
vector, and index it.  `fuel = 0` reports exhaustion (the Rust original would
recurse forever on a cyclic graph). -/
def resolve_gate_output (sig : ℚ → ℚ) (c : NeuralCircuit) (ins : List ℚ) :
    Nat → Nat → Nat → Memo → Except String (ℚ × Memo)
  | 0, _, _, _ => Except.error "recursion depth exceeded"
  | fuel + 1, gate_id, output_idx, memo =>
    match amFind gate_id memo with
    | some outputs =>
        match outputs.get? output_idx with
        | some v => Except.ok (v, memo)
        | none => Except.error ("Invalid output index for gate " ++ toString gate_id)
    | none =>
        match amFind gate_id c.gates with
        | none => Except.error ("Gate " ++ toString gate_id ++ " not found")
        | some gate =>
            match build_gate_inputs c ins (resolve_gate_output sig c ins fuel) gate_id
                (List.range (ncolsOf gate.w1)) memo with
            | Except.error e => Except.error e
            | Except.ok (vals, memo1) =>
                let output_vec := gate.forward sig vals
                match output_vec.get? output_idx with
                | some v => Except.ok (v, amInsert gate_id output_vec memo1)
                | none => Except.error "Output index out of bounds after compute"

/-- The loop of `NeuralCircuit::forward` over `output_mapping`, threading the
shared memo. -/
def forwardAux (sig : ℚ → ℚ) (c : NeuralCircuit) (ins : List ℚ) (fuel : Nat) :
    List (Nat × Nat) → Memo → Except String (List ℚ)
  | [], _ => Except.ok []
  | (gate_id, out_idx) :: rest, memo =>
    match resolve_gate_output sig c ins fuel gate_id out_idx memo with
    | Except.error e => Except.error e
    | Except.ok (v, memo1) =>
        match forwardAux sig c ins fuel rest memo1 with
        | Except.error e => Except.error e
        | Except.ok vs => Except.ok (v :: vs)

/-- `NeuralCircuit::forward`: reject an input-size mismatch, then resolve
every declared output through the shared memo. -/
def NeuralCircuit.forward (sig : ℚ → ℚ) (c : NeuralCircuit) (circuit_inputs : List ℚ) :
    Except String (List ℚ) :=
  if circuit_inputs.length ≠ c.input_size then Except.error "Input size mismatch"
  else forwardAux sig c circuit_inputs (c.gates.length + 1) c.output_mapping []

end legacy

namespace legacy

/-! ### Spec-side naive (non-memoized) evaluation, for C6

`naive_gate_outputs` recomputes a gate's full output vector from scratch on
every reference — the "naive non-memoized recursive evaluation of the same
DAG" that the spec's memoized evaluator must agree with. -/

/-- Spec: build a gate's input vector without a memo; connected inputs
resolve through `recurse`, circuit inputs are indexed, missing connections
default to 0.0. -/
def naive_build (c : NeuralCircuit) (ins : List ℚ)
    (recurse : Nat → Nat → Except String ℚ) (gate_id : Nat) :
    List Nat → Except String (List ℚ)
  | [] => Except.ok []
  | i :: rest =>
    match amFind (gate_id, i) c.connections with
    | some (some src_id, src_out_idx) =>
        match recurse src_id src_out_idx with
        | Except.error e => Except.error e
        | Except.ok v =>
            match naive_build c ins recurse gate_id rest with
            | Except.error e => Except.error e
            | Except.ok vs => Except.ok (v :: vs)
    | some (none, src_out_idx) =>
        match ins.get? src_out_idx with
        | some v =>
            match naive_build c ins recurse gate_id rest with
            | Except.error e => Except.error e
            | Except.ok vs => Except.ok (v :: vs)
        | none => Except.error "Circuit input index out of bounds"
    | none =>
        match naive_build c ins recurse gate_id rest with
        | Except.error e => Except.error e
        | Except.ok vs => Except.ok ((0 : ℚ) :: vs)

/-- Spec: naive evaluation of a gate's entire output vector. -/
def naive_gate_outputs (sig : ℚ → ℚ) (c : NeuralCircuit) (ins : List ℚ) :
    Nat → Nat → Except String (List ℚ)
  | 0, _ => Except.error "recursion depth exceeded"
  | fuel + 1, gate_id =>
    match amFind gate_id c.gates with
    | none => Except.error ("Gate " ++ toString gate_id ++ " not found")
    | some gate =>
        match naive_build c ins
            (fun src_id src_out_idx =>
              match naive_gate_outputs sig c ins fuel src_id with
              | Except.error e => Except.error e
              | Except.ok outs =>
                  match outs.get? src_out_idx with
                  | some v => Except.ok v
                  | none => Except.error
                      ("Invalid output index for gate " ++ toString src_id))
            gate_id (List.range (ncolsOf gate.w1)) with
        | Except.error e => Except.error e
        | Except.ok vals => Except.ok (gate.forward sig vals)

/-- Spec: naive resolution of one gate output. -/
def naive_resolve (sig : ℚ → ℚ) (c : NeuralCircuit) (ins : List ℚ)
    (fuel gate_id output_idx : Nat) : Except String ℚ :=
  match naive_gate_outputs sig c ins fuel gate_id with
  | Except.error e => Except.error e
  | Except.ok outs =>
      match outs.get? output_idx with
      | some v => Except.ok v
      | none => Except.error ("Invalid output index for gate " ++ toString gate_id)

/-- Unfolding `naive_gate_outputs` at positive fuel, with the recursive
resolver written as `naive_resolve`. -/
theorem naive_gate_outputs_succ (sig : ℚ → ℚ) (c : NeuralCircuit) (ins : List ℚ)
    (fuel gate_id : Nat) :
    naive_gate_outputs sig c ins (fuel + 1) gate_id =
      match amFind gate_id c.gates with
      | none => Except.error ("Gate " ++ toString gate_id ++ " not found")
      | some gate =>
          match naive_build c ins (naive_resolve sig c ins fuel) gate_id
              (List.range (ncolsOf gate.w1)) with
          | Except.error e => Except.error e
          | Except.ok vals => Except.ok (gate.forward sig vals) := rfl

/-- Spec: naive resolution of every declared circuit output. -/
def naiveForwardAux (sig : ℚ → ℚ) (c : NeuralCircuit) (ins : List ℚ) (fuel : Nat) :
    List (Nat × Nat) → Except String (List ℚ)
  | [] => Except.ok []
  | (gate_id, out_idx) :: rest =>
    match naive_resolve sig c ins fuel gate_id out_idx with
    | Except.error e => Except.error e
    | Except.ok v =>
        match naiveForwardAux sig c ins fuel rest with
        | Except.error e => Except.error e
        | Except.ok vs => Except.ok (v :: vs)

/-- Spec: the naive (non-memoized) circuit evaluation. -/
def naiveForward (sig : ℚ → ℚ) (c : NeuralCircuit) (ins : List ℚ) (fuel : Nat) :
    Except String (List ℚ) :=
  if ins.length ≠ c.input_size then Except.error "Input size mismatch"
  else naiveForwardAux sig c ins fuel c.output_mapping

/-! ### Fuel monotonicity of the naive evaluation -/

theorem naive_build_mono (c : NeuralCircuit) (ins : List ℚ)
    (r1 r2 : Nat → Nat → Except String ℚ)
    (hr : ∀ g o v, r1 g o = Except.ok v → r2 g o = Except.ok v) (gid : Nat) :
    ∀ l vals, naive_build c ins r1 gid l = Except.ok vals →
      naive_build c ins r2 gid l = Except.ok vals := by
  intro l
  induction l with
  | nil => intro vals h; exact h
  | cons i rest ih =>
    intro vals h
    simp only [naive_build] at h ⊢
    cases hconn : amFind (gid, i) c.connections with
    | none =>
      rw [hconn] at h
      dsimp only at h ⊢
      cases hrec : naive_build c ins r1 gid rest with
      | error e =>
        rw [hrec] at h
        exact absurd h (by simp)
      | ok vs =>
        rw [hrec] at h
        rw [ih vs hrec]
        exact h
    | some p =>
      obtain ⟨srcOpt, sidx⟩ := p
      cases srcOpt with
      | some src =>
        rw [hconn] at h
        dsimp only at h ⊢
        cases hv : r1 src sidx with
        | error e =>
          rw [hv] at h
          exact absurd h (by simp)
        | ok v =>
          rw [hv] at h
          rw [hr src sidx v hv]
          dsimp only at h ⊢
          cases hrec : naive_build c ins r1 gid rest with
          | error e =>
            rw [hrec] at h
            exact absurd h (by simp)
          | ok vs =>
            rw [hrec] at h
            rw [ih vs hrec]
            exact h
      | none =>
        rw [hconn] at h
        dsimp only at h ⊢
        cases hv : ins.get? sidx with
        | none =>
          rw [hv] at h
          exact absurd h (by simp)
        | some v =>
          rw [hv] at h
          dsimp only at h ⊢
          cases hrec : naive_build c ins r1 gid rest with
          | error e =>
            rw [hrec] at h
            exact absurd h (by simp)
          | ok vs =>
            rw [hrec] at h
            rw [ih vs hrec]
            exact h

theorem naive_gate_outputs_mono (sig : ℚ → ℚ) (c : NeuralCircuit) (ins : List ℚ) :
    ∀ fuel fuel', fuel ≤ fuel' → ∀ gid outs,
      naive_gate_outputs sig c ins fuel gid = Except.ok outs →
      naive_gate_outputs sig c ins fuel' gid = Except.ok outs := by
  intro fuel
  induction fuel with
  | zero => intro fuel' _ gid outs h; cases h
  | succ f ih =>
    intro fuel' hle gid outs h
    obtain ⟨f', rfl⟩ : ∃ f'', fuel' = f'' + 1 := ⟨fuel' - 1, by omega⟩
    rw [naive_gate_outputs_succ] at h ⊢
    cases hg : amFind gid c.gates with
    | none =>
      rw [hg] at h
      exact absurd h (by simp)
    | some gate =>
      rw [hg] at h
      dsimp only at h ⊢
      cases hb : naive_build c ins (naive_resolve sig c ins f) gid
          (List.range (ncolsOf gate.w1)) with
      | error e =>
        rw [hb] at h
        exact absurd h (by simp)
      | ok vals =>
        rw [hb] at h
        have hr : ∀ g o v, naive_resolve sig c ins f g o = Except.ok v →
            naive_resolve sig c ins f' g o = Except.ok v := by
          intro g o v hv
          rw [naive_resolve] at hv ⊢
          cases ho : naive_gate_outputs sig c ins f g with
          | error e => rw [ho] at hv; cases hv
          | ok outs2 =>
            rw [ho] at hv
            rw [ih f' (by omega) g outs2 ho]
            exact hv
        rw [naive_build_mono c ins _ _ hr gid _ vals hb]
        exact h

theorem naive_resolve_mono (sig : ℚ → ℚ) (c : NeuralCircuit) (ins : List ℚ)
    (fuel fuel' : Nat) (hle : fuel ≤ fuel') (gid oidx : Nat) (v : ℚ)
    (h : naive_resolve sig c ins fuel gid oidx = Except.ok v) :
    naive_resolve sig c ins fuel' gid oidx = Except.ok v := by
  rw [naive_resolve] at h ⊢
  cases ho : naive_gate_outputs sig c ins fuel gid with
  | error e => rw [ho] at h; cases h
  | ok outs =>
    rw [ho] at h
    rw [naive_gate_outputs_mono sig c ins fuel fuel' hle gid outs ho]
    exact h

end legacy

namespace legacy

/-! ### Memo correctness: every memo entry is a naive evaluation result -/

/-- Every entry of the memo is the naive evaluation of its gate. -/
def MemoOK (sig : ℚ → ℚ) (c : NeuralCircuit) (ins : List ℚ) (memo : Memo) : Prop :=
  ∀ gid outs, amFind gid (memo : List (Nat × List ℚ)) = some outs →
    ∃ fuel, naive_gate_outputs sig c ins fuel gid = Except.ok outs

theorem build_sim (sig : ℚ → ℚ) (c : NeuralCircuit) (ins : List ℚ)
    (recurse : Nat → Nat → Memo → Except String (ℚ × Memo))
    (hr : ∀ gid oidx memo v memo', MemoOK sig c ins memo →
      recurse gid oidx memo = Except.ok (v, memo') →
      MemoOK sig c ins memo' ∧
        ∃ fuel, naive_resolve sig c ins fuel gid oidx = Except.ok v)
    (gid : Nat) :
    ∀ l memo vals memo', MemoOK sig c ins memo →
      build_gate_inputs c ins recurse gid l memo = Except.ok (vals, memo') →
      MemoOK sig c ins memo' ∧
      ∃ fuel, naive_build c ins (naive_resolve sig c ins fuel) gid l =
        Except.ok vals := by
  intro l
  induction l with
  | nil =>
    intro memo vals memo' hm h
    simp only [build_gate_inputs, Except.ok.injEq, Prod.mk.injEq] at h
    obtain ⟨h1, h2⟩ := h
    subst h1
    subst h2
    exact ⟨hm, 0, rfl⟩
  | cons i rest ih =>
    intro memo vals memo' hm h
    simp only [build_gate_inputs] at h
    cases hconn : amFind (gid, i) c.connections with
    | none =>
      rw [hconn] at h
      dsimp only at h
      cases hrec : build_gate_inputs c ins recurse gid rest memo with
      | error e =>
        rw [hrec] at h
        exact absurd h (by simp)
      | ok p =>
        obtain ⟨vs, memo2⟩ := p
        rw [hrec] at h
        simp only [Except.ok.injEq, Prod.mk.injEq] at h
        obtain ⟨h1, h2⟩ := h
        subst h1
        subst h2
        obtain ⟨hm2, fuel, hnb⟩ := ih memo vs memo2 hm hrec
        refine ⟨hm2, fuel, ?_⟩
        simp only [naive_build, hconn]
        rw [hnb]
    | some p =>
      obtain ⟨srcOpt, sidx⟩ := p
      cases srcOpt with
      | some src =>
        rw [hconn] at h
        dsimp only at h
        cases hv : recurse src sidx memo with
        | error e =>
          rw [hv] at h
          exact absurd h (by simp)
        | ok q =>
          obtain ⟨v, memo1⟩ := q
          rw [hv] at h
          dsimp only at h
          obtain ⟨hm1, f1, hr1⟩ := hr src sidx memo v memo1 hm hv
          cases hrec : build_gate_inputs c ins recurse gid rest memo1 with
          | error e =>
            rw [hrec] at h
            exact absurd h (by simp)
          | ok p2 =>
            obtain ⟨vs, memo2⟩ := p2
            rw [hrec] at h
            simp only [Except.ok.injEq, Prod.mk.injEq] at h
            obtain ⟨h1, h2⟩ := h
            subst h1
            subst h2
            obtain ⟨hm2, f2, hnb⟩ := ih memo1 vs memo2 hm1 hrec
            refine ⟨hm2, max f1 f2, ?_⟩
            simp only [naive_build, hconn]
            rw [naive_resolve_mono sig c ins f1 (max f1 f2) (le_max_left f1 f2)
              src sidx v hr1]
            dsimp only
            rw [naive_build_mono c ins (naive_resolve sig c ins f2)
              (naive_resolve sig c ins (max f1 f2))
              (fun g o w hw => naive_resolve_mono sig c ins f2 (max f1 f2)
                (le_max_right f1 f2) g o w hw) gid rest vs hnb]
      | none =>
        rw [hconn] at h
        dsimp only at h
        cases hv : ins.get? sidx with
        | none =>
          rw [hv] at h
          exact absurd h (by simp)
        | some v =>
          rw [hv] at h
          dsimp only at h
          cases hrec : build_gate_inputs c ins recurse gid rest memo with
          | error e =>
            rw [hrec] at h
            exact absurd h (by simp)
          | ok p2 =>
            obtain ⟨vs, memo2⟩ := p2
            rw [hrec] at h
            simp only [Except.ok.injEq, Prod.mk.injEq] at h
            obtain ⟨h1, h2⟩ := h
            subst h1
            subst h2
            obtain ⟨hm2, f2, hnb⟩ := ih memo vs memo2 hm hrec
            refine ⟨hm2, f2, ?_⟩
            simp only [naive_build, hconn]
            rw [hv]
            dsimp only
            rw [hnb]

theorem resolve_sim (sig : ℚ → ℚ) (c : NeuralCircuit) (ins : List ℚ) :
    ∀ fuel gid oidx memo v memo', MemoOK sig c ins memo →
      resolve_gate_output sig c ins fuel gid oidx memo = Except.ok (v, memo') →
      MemoOK sig c ins memo' ∧
        ∃ f, naive_resolve sig c ins f gid oidx = Except.ok v := by
  intro fuel
  induction fuel with
  | zero =>
    intro gid oidx memo v memo' hm h
    exact absurd h (by simp [resolve_gate_output])
  | succ f ih =>
    intro gid oidx memo v memo' hm h
    simp only [resolve_gate_output] at h
    cases hmf : amFind gid (memo : List (Nat × List ℚ)) with
    | some outputs =>
      rw [hmf] at h
      dsimp only at h
      cases hgo : outputs.get? oidx with
      | none =>
        rw [hgo] at h
        exact absurd h (by simp)
      | some v0 =>
        rw [hgo] at h
        simp only [Except.ok.injEq, Prod.mk.injEq] at h
        obtain ⟨h1, h2⟩ := h
        subst h1
        subst h2
        obtain ⟨f0, hngo⟩ := hm gid outputs hmf
        refine ⟨hm, f0, ?_⟩
        rw [naive_resolve, hngo]
        dsimp only
        rw [hgo]
    | none =>
      rw [hmf] at h
      dsimp only at h
      cases hg : amFind gid c.gates with
      | none =>
        rw [hg] at h
        exact absurd h (by simp)
      | some gate =>
        rw [hg] at h
        dsimp only at h
        cases hb : build_gate_inputs c ins (resolve_gate_output sig c ins f) gid
            (List.range (ncolsOf gate.w1)) memo with
        | error e =>
          rw [hb] at h
          exact absurd h (by simp)
        | ok p =>
          obtain ⟨vals, memo1⟩ := p
          rw [hb] at h
          dsimp only at h
          cases hov : (NeuralGate.forward sig gate vals).get? oidx with
          | none =>
            rw [hov] at h
            exact absurd h (by simp)
          | some v0 =>
            rw [hov] at h
            simp only [Except.ok.injEq, Prod.mk.injEq] at h
            obtain ⟨h1, h2⟩ := h
            subst h1
            subst h2
            obtain ⟨hm1, fb, hnb⟩ := build_sim sig c ins
              (resolve_gate_output sig c ins f)
              (fun g o m w m' hmx hx => ih g o m w m' hmx hx) gid
              (List.range (ncolsOf gate.w1)) memo vals memo1 hm hb
            have hout : naive_gate_outputs sig c ins (fb + 1) gid =
                Except.ok (NeuralGate.forward sig gate vals) := by
              rw [naive_gate_outputs_succ, hg]
              dsimp only
              rw [hnb]
            have hmm : MemoOK sig c ins
                (amInsert gid (NeuralGate.forward sig gate vals) memo1) := by
              intro g outs hfind
              by_cases hgg : g = gid
              · subst hgg
                rw [amFind_amInsert_self] at hfind
                obtain rfl : NeuralGate.forward sig gate vals = outs :=
                  Option.some.inj hfind
                exact ⟨fb + 1, hout⟩
              · rw [amFind_amInsert_ne gid g _ _ hgg] at hfind
                exact hm1 g outs hfind
            refine ⟨hmm, fb + 1, ?_⟩
            rw [naive_resolve, hout]
            dsimp only
            rw [hov]

theorem naiveForwardAux_mono (sig : ℚ → ℚ) (c : NeuralCircuit) (ins : List ℚ)
    (f f' : Nat) (hle : f ≤ f') :
    ∀ l res, naiveForwardAux sig c ins f l = Except.ok res →
      naiveForwardAux sig c ins f' l = Except.ok res := by
  intro l
  induction l with
  | nil => intro res h; exact h
  | cons p rest ih =>
    obtain ⟨gid, oidx⟩ := p
    intro res h
    simp only [naiveForwardAux] at h ⊢
    cases hv : naive_resolve sig c ins f gid oidx with
    | error e =>
      rw [hv] at h
      exact absurd h (by simp)
    | ok v =>
      rw [hv] at h
      rw [naive_resolve_mono sig c ins f f' hle gid oidx v hv]
      dsimp only at h ⊢
      cases hrest : naiveForwardAux sig c ins f rest with
      | error e =>
        rw [hrest] at h
        exact absurd h (by simp)
      | ok vs =>
        rw [hrest] at h
        rw [ih vs hrest]
        exact h

theorem forwardAux_sim (sig : ℚ → ℚ) (c : NeuralCircuit) (ins : List ℚ) (fuel : Nat) :
    ∀ l memo res, MemoOK sig c ins memo →
      forwardAux sig c ins fuel l memo = Except.ok res →
      ∃ f, naiveForwardAux sig c ins f l = Except.ok res := by
  intro l
  induction l with
  | nil =>
    intro memo res hm h
    simp only [forwardAux, Except.ok.injEq] at h
    subst h
    exact ⟨0, rfl⟩
  | cons p rest ih =>
    obtain ⟨gid, oidx⟩ := p
    intro memo res hm h
    simp only [forwardAux] at h
    cases hv : resolve_gate_output sig c ins fuel gid oidx memo with
    | error e =>
      rw [hv] at h
      exact absurd h (by simp)
    | ok q =>
      obtain ⟨v, memo1⟩ := q
      rw [hv] at h
      dsimp only at h
      obtain ⟨hm1, f1, hr1⟩ := resolve_sim sig c ins fuel gid oidx memo v memo1 hm hv
      cases hrest : forwardAux sig c ins fuel rest memo1 with
      | error e =>
        rw [hrest] at h
        exact absurd h (by simp)
      | ok vs =>
        rw [hrest] at h
        simp only [Except.ok.injEq] at h
        subst h
        obtain ⟨f2, h2⟩ := ih memo1 vs hm1 hrest
        refine ⟨max f1 f2, ?_⟩
        simp only [naiveForwardAux]
        rw [naive_resolve_mono sig c ins f1 (max f1 f2) (le_max_left f1 f2)
          gid oidx v hr1]
        dsimp only
        rw [naiveForwardAux_mono sig c ins f2 (max f1 f2) (le_max_right f1 f2)
          rest vs h2]

end legacy

namespace legacy

/-! ### Trace-instrumented evaluation, for the "each gate computed at most
once" half of C6.  `…T` variants are the same algorithm additionally
returning the chronological list of gate ids whose forward pass was
computed; an erasure lemma relates them to the plain evaluator. -/

/-- Instrumented `build_gate_inputs`. -/
def build_gate_inputsT (c : NeuralCircuit) (ins : List ℚ)
    (recurse : Nat → Nat → Memo → Except String (ℚ × Memo × List Nat)) (gate_id : Nat) :
    List Nat → Memo → Except String (List ℚ × Memo × List Nat)
  | [], memo => Except.ok ([], memo, [])
  | i :: rest, memo =>
    match amFind (gate_id, i) c.connections with
    | some (some src_id, src_out_idx) =>
        match recurse src_id src_out_idx memo with
        | Except.error e => Except.error e
        | Except.ok (v, memo1, tr1) =>
            match build_gate_inputsT c ins recurse gate_id rest memo1 with
            | Except.error e => Except.error e
            | Except.ok (vs, memo2, tr2) => Except.ok (v :: vs, memo2, tr1 ++ tr2)
    | some (none, src_out_idx) =>
        match ins.get? src_out_idx with
        | some v =>
            match build_gate_inputsT c ins recurse gate_id rest memo with
            | Except.error e => Except.error e
            | Except.ok (vs, memo2, tr2) => Except.ok (v :: vs, memo2, tr2)
        | none => Except.error "Circuit input index out of bounds"
    | none =>
        match build_gate_inputsT c ins recurse gate_id rest memo with
        | Except.error e => Except.error e
        | Except.ok (vs, memo2, tr2) => Except.ok ((0 : ℚ) :: vs, memo2, tr2)

/-- Instrumented `resolve_gate_output`: a memo hit computes nothing; a miss
appends the gate's id after the trace of its input building. -/
def resolve_gate_outputT (sig : ℚ → ℚ) (c : NeuralCircuit) (ins : List ℚ) :
    Nat → Nat → Nat → Memo → Except String (ℚ × Memo × List Nat)
  | 0, _, _, _ => Except.error "recursion depth exceeded"
  | fuel + 1, gate_id, output_idx, memo =>
    match amFind gate_id (memo : List (Nat × List ℚ)) with
    | some outputs =>
        match outputs.get? output_idx with
        | some v => Except.ok (v, memo, [])
        | none => Except.error ("Invalid output index for gate " ++ toString gate_id)
    | none =>
        match amFind gate_id c.gates with
        | none => Except.error ("Gate " ++ toString gate_id ++ " not found")
        | some gate =>
            match build_gate_inputsT c ins (resolve_gate_outputT sig c ins fuel) gate_id
                (List.range (ncolsOf gate.w1)) memo with
            | Except.error e => Except.error e
            | Except.ok (vals, memo1, tr) =>
                let output_vec := gate.forward sig vals
                match output_vec.get? output_idx with
                | some v =>
                    Except.ok (v, amInsert gate_id output_vec memo1, tr ++ [gate_id])
                | none => Except.error "Output index out of bounds after compute"

/-- Instrumented `forwardAux`. -/
def forwardAuxT (sig : ℚ → ℚ) (c : NeuralCircuit) (ins : List ℚ) (fuel : Nat) :
    List (Nat × Nat) → Memo → Except String (List ℚ × List Nat)
  | [], _ => Except.ok ([], [])
  | (gate_id, out_idx) :: rest, memo =>
    match resolve_gate_outputT sig c ins fuel gate_id out_idx memo with
    | Except.error e => Except.error e
    | Except.ok (v, memo1, tr1) =>
        match forwardAuxT sig c ins fuel rest memo1 with
        | Except.error e => Except.error e
        | Except.ok (vs, tr2) => Except.ok (v :: vs, tr1 ++ tr2)

/-- Instrumented `forward`. -/
def forwardT (sig : ℚ → ℚ) (c : NeuralCircuit) (circuit_inputs : List ℚ) :
    Except String (List ℚ × List Nat) :=
  if circuit_inputs.length ≠ c.input_size then Except.error "Input size mismatch"
  else forwardAuxT sig c circuit_inputs (c.gates.length + 1) c.output_mapping []

/-- Forgetting the trace of an instrumented result. -/
def eraseTr (p : ℚ × Memo × List Nat) : ℚ × Memo := (p.1, p.2.1)

theorem buildT_erase (c : NeuralCircuit) (ins : List ℚ)
    (r : Nat → Nat → Memo → Except String (ℚ × Memo))
    (rT : Nat → Nat → Memo → Except String (ℚ × Memo × List Nat))
    (hr : ∀ g o m, r g o m = Except.map eraseTr (rT g o m)) (gid : Nat) :
    ∀ l memo, build_gate_inputs c ins r gid l memo =
      Except.map (fun p => (p.1, p.2.1))
        (build_gate_inputsT c ins rT gid l memo) := by
  intro l
  induction l with
  | nil => intro memo; rfl
  | cons i rest ih =>
    intro memo
    simp only [build_gate_inputs, build_gate_inputsT]
    cases hconn : amFind (gid, i) c.connections with
    | none =>
      dsimp only
      rw [ih memo]
      cases hrec : build_gate_inputsT c ins rT gid rest memo with
      | error e => rfl
      | ok p =>
        obtain ⟨vs, memo2, tr2⟩ := p
        rfl
    | some p =>
      obtain ⟨srcOpt, sidx⟩ := p
      cases srcOpt with
      | some src =>
        dsimp only
        rw [hr src sidx memo]
        cases hv : rT src sidx memo with
        | error e => rfl
        | ok q =>
          obtain ⟨v, memo1, tr1⟩ := q
          dsimp only [Except.map, eraseTr]
          rw [ih memo1]
          cases hrec : build_gate_inputsT c ins rT gid rest memo1 with
          | error e => rfl
          | ok p2 =>
            obtain ⟨vs, memo2, tr2⟩ := p2
            rfl
      | none =>
        dsimp only
        cases hv : ins.get? sidx with
        | none => rfl
        | some v =>
          dsimp only
          rw [ih memo]
          cases hrec : build_gate_inputsT c ins rT gid rest memo with
          | error e => rfl
          | ok p2 =>
            obtain ⟨vs, memo2, tr2⟩ := p2
            rfl

theorem resolveT_erase (sig : ℚ → ℚ) (c : NeuralCircuit) (ins : List ℚ) :
    ∀ fuel gid oidx memo, resolve_gate_output sig c ins fuel gid oidx memo =
      Except.map eraseTr (resolve_gate_outputT sig c ins fuel gid oidx memo) := by
  intro fuel
  induction fuel with
  | zero => intro gid oidx memo; rfl
  | succ f ih =>
    intro gid oidx memo
    simp only [resolve_gate_output, resolve_gate_outputT]
    cases hmf : amFind gid (memo : List (Nat × List ℚ)) with
    | some outputs =>
      dsimp only
      cases hgo : outputs.get? oidx with
      | none => rfl
      | some v => rfl
    | none =>
      dsimp only
      cases hg : amFind gid c.gates with
      | none => rfl
      | some gate =>
        dsimp only
        rw [buildT_erase c ins _ _ (fun g o m => ih g o m) gid
          (List.range (ncolsOf gate.w1)) memo]
        cases hb : build_gate_inputsT c ins (resolve_gate_outputT sig c ins f) gid
            (List.range (ncolsOf gate.w1)) memo with
        | error e => rfl
        | ok p =>
          obtain ⟨vals, memo1, tr⟩ := p
          dsimp only [Except.map]
          cases hov : (NeuralGate.forward sig gate vals).get? oidx with
          | none => rfl
          | some v => rfl

theorem forwardAuxT_erase (sig : ℚ → ℚ) (c : NeuralCircuit) (ins : List ℚ) (fuel : Nat) :
    ∀ l memo, forwardAux sig c ins fuel l memo =
      Except.map (fun p => p.1) (forwardAuxT sig c ins fuel l memo) := by
  intro l
  induction l with
  | nil => intro memo; rfl
  | cons p rest ih =>
    obtain ⟨gid, oidx⟩ := p
    intro memo
    simp only [forwardAux, forwardAuxT]
    rw [resolveT_erase sig c ins fuel gid oidx memo]
    cases hv : resolve_gate_outputT sig c ins fuel gid oidx memo with
    | error e => rfl
    | ok q =>
      obtain ⟨v, memo1, tr1⟩ := q
      dsimp only [Except.map, eraseTr]
      rw [ih memo1]
      cases hrest : forwardAuxT sig c ins fuel rest memo1 with
      | error e => rfl
      | ok p2 =>
        obtain ⟨vs, tr2⟩ := p2
        rfl

theorem forwardT_erase (sig : ℚ → ℚ) (c : NeuralCircuit) (ins : List ℚ) :
    NeuralCircuit.forward sig c ins =
      Except.map (fun p => p.1) (forwardT sig c ins) := by
  rw [NeuralCircuit.forward, forwardT]
  by_cases hsz : ins.length ≠ c.input_size
  · rw [if_pos hsz, if_pos hsz]
    rfl
  · rw [if_neg hsz, if_neg hsz]
    exact forwardAuxT_erase sig c ins (c.gates.length + 1) c.output_mapping []

end legacy

namespace legacy

/-- One dependency step of the connection graph: gate `g` consumes an output
of gate `g'` through some input index. -/
def ConnStep (c : NeuralCircuit) (g g' : Nat) : Prop :=
  ∃ i j, amFind (g, i) c.connections = some (some g', j)

/-- The connection graph is acyclic: no gate transitively feeds itself. -/
def Acyclic (c : NeuralCircuit) : Prop :=
  ∀ g, ¬ Relation.TransGen (ConnStep c) g g

/-- Trace bookkeeping through one instrumented evaluation: the trace is
duplicate-free, its gates were absent from the entry memo, they are present
in the result memo, and existing memo entries survive. -/
def TraceInv (memo memo' : Memo) (tr : List Nat) : Prop :=
  tr.Nodup ∧
  (∀ x ∈ tr, amFind x (memo : List (Nat × List ℚ)) = none) ∧
  (∀ x ∈ tr, ∃ o, amFind x (memo' : List (Nat × List ℚ)) = some o) ∧
  (∀ x o, amFind x (memo : List (Nat × List ℚ)) = some o →
    amFind x (memo' : List (Nat × List ℚ)) = some o)

theorem buildT_nodup (c : NeuralCircuit) (ins : List ℚ)
    (rT : Nat → Nat → Memo → Except String (ℚ × Memo × List Nat))
    (hrT : ∀ g o m v m' t, rT g o m = Except.ok (v, m', t) →
      TraceInv m m' t ∧ ∀ x ∈ t, Relation.ReflTransGen (ConnStep c) g x)
    (gid : Nat) :
    ∀ l memo vals memo' tr,
      build_gate_inputsT c ins rT gid l memo = Except.ok (vals, memo', tr) →
      TraceInv memo memo' tr ∧ ∀ x ∈ tr, Relation.TransGen (ConnStep c) gid x := by
  intro l
  induction l with
  | nil =>
    intro memo vals memo' tr h
    simp only [build_gate_inputsT, Except.ok.injEq, Prod.mk.injEq] at h
    obtain ⟨h1, h2, h3⟩ := h
    subst h1
    subst h2
    subst h3
    exact ⟨⟨List.nodup_nil, by simp, by simp, fun x o hx => hx⟩, by simp⟩
  | cons i rest ih =>
    intro memo vals memo' tr h
    simp only [build_gate_inputsT] at h
    cases hconn : amFind (gid, i) c.connections with
    | none =>
      rw [hconn] at h
      dsimp only at h
      cases hrec : build_gate_inputsT c ins rT gid rest memo with
      | error e =>
        rw [hrec] at h
        exact absurd h (by simp)
      | ok p =>
        obtain ⟨vs, memo2, tr2⟩ := p
        rw [hrec] at h
        simp only [Except.ok.injEq, Prod.mk.injEq] at h
        obtain ⟨h1, h2, h3⟩ := h
        subst h1
        subst h2
        subst h3
        exact ih memo vs memo2 tr2 hrec
    | some p =>
      obtain ⟨srcOpt, sidx⟩ := p
      cases srcOpt with
      | some src =>
        rw [hconn] at h
        dsimp only at h
        cases hv : rT src sidx memo with
        | error e =>
          rw [hv] at h
          exact absurd h (by simp)
        | ok q =>
          obtain ⟨v, memo1, tr1⟩ := q
          rw [hv] at h
          dsimp only at h
          cases hrec : build_gate_inputsT c ins rT gid rest memo1 with
          | error e =>
            rw [hrec] at h
            exact absurd h (by simp)
          | ok p2 =>
            obtain ⟨vs, memo2, tr2⟩ := p2
            rw [hrec] at h
            simp only [Except.ok.injEq, Prod.mk.injEq] at h
            obtain ⟨h1, h2, h3⟩ := h
            subst h1
            subst h2
            subst h3
            obtain ⟨⟨nd1, fresh1, pres1, mono1⟩, path1⟩ := hrT src sidx memo v memo1 tr1 hv
            obtain ⟨⟨nd2, fresh2, pres2, mono2⟩, path2⟩ := ih memo1 vs memo2 tr2 hrec
            have hstep : ConnStep c gid src := ⟨i, sidx, hconn⟩
            have hdisj : ∀ x ∈ tr1, x ∉ tr2 := by
              intro x hx1 hx2
              obtain ⟨o, ho⟩ := pres1 x hx1
              rw [fresh2 x hx2] at ho
              cases ho
            refine ⟨⟨?_, ?_, ?_, ?_⟩, ?_⟩
            · rw [List.nodup_append]
              exact ⟨nd1, nd2, hdisj⟩
            · intro x hx
              rcases List.mem_append.mp hx with hx1 | hx2
              · exact fresh1 x hx1
              · cases hmem : amFind x (memo : List (Nat × List ℚ)) with
                | none => rfl
                | some o =>
                  have hcontra := mono1 x o hmem
                  rw [fresh2 x hx2] at hcontra
                  cases hcontra
            · intro x hx
              rcases List.mem_append.mp hx with hx1 | hx2
              · obtain ⟨o, ho⟩ := pres1 x hx1
                exact ⟨o, mono2 x o ho⟩
              · exact pres2 x hx2
            · intro x o ho
              exact mono2 x o (mono1 x o ho)
            · intro x hx
              rcases List.mem_append.mp hx with hx1 | hx2
              · exact Relation.TransGen.head' hstep (path1 x hx1)
              · exact path2 x hx2
      | none =>
        rw [hconn] at h
        dsimp only at h
        cases hv : ins.get? sidx with
        | none =>
          rw [hv] at h
          exact absurd h (by simp)
        | some v =>
          rw [hv] at h
          dsimp only at h
          cases hrec : build_gate_inputsT c ins rT gid rest memo with
          | error e =>
            rw [hrec] at h
            exact absurd h (by simp)
          | ok p2 =>
            obtain ⟨vs, memo2, tr2⟩ := p2
            rw [hrec] at h
            simp only [Except.ok.injEq, Prod.mk.injEq] at h
            obtain ⟨h1, h2, h3⟩ := h
            subst h1
            subst h2
            subst h3
            exact ih memo vs memo2 tr2 hrec

theorem resolveT_nodup (sig : ℚ → ℚ) (c : NeuralCircuit) (ins : List ℚ)
    (hacyc : Acyclic c) :
    ∀ fuel gid oidx memo v memo' tr,
      resolve_gate_outputT sig c ins fuel gid oidx memo = Except.ok (v, memo', tr) →
      TraceInv memo memo' tr ∧ ∀ x ∈ tr, Relation.ReflTransGen (ConnStep c) gid x := by
  intro fuel
  induction fuel with
  | zero =>
    intro gid oidx memo v memo' tr h
    exact absurd h (by simp [resolve_gate_outputT])
  | succ f ih =>
    intro gid oidx memo v memo' tr h
    simp only [resolve_gate_outputT] at h
    cases hmf : amFind gid (memo : List (Nat × List ℚ)) with
    | some outputs =>
      rw [hmf] at h
      dsimp only at h
      cases hgo : outputs.get? oidx with
      | none =>
        rw [hgo] at h
        exact absurd h (by simp)
      | some v0 =>
        rw [hgo] at h
        simp only [Except.ok.injEq, Prod.mk.injEq] at h
        obtain ⟨h1, h2, h3⟩ := h
        subst h1
        subst h2
        subst h3
        exact ⟨⟨List.nodup_nil, by simp, by simp, fun x o hx => hx⟩, by simp⟩
    | none =>
      rw [hmf] at h
      dsimp only at h
      cases hg : amFind gid c.gates with
      | none =>
        rw [hg] at h
        exact absurd h (by simp)
      | some gate =>
        rw [hg] at h
        dsimp only at h
        cases hb : build_gate_inputsT c ins (resolve_gate_outputT sig c ins f) gid
            (List.range (ncolsOf gate.w1)) memo with
        | error e =>
          rw [hb] at h
          exact absurd h (by simp)
        | ok p =>
          obtain ⟨vals, memo1, trb⟩ := p
          rw [hb] at h
          dsimp only at h
          cases hov : (NeuralGate.forward sig gate vals).get? oidx with
          | none =>
            rw [hov] at h
            exact absurd h (by simp)
          | some v0 =>
            rw [hov] at h
            simp only [Except.ok.injEq, Prod.mk.injEq] at h
            obtain ⟨h1, h2, h3⟩ := h
            subst h1
            subst h2
            subst h3
            obtain ⟨⟨ndb, freshb, presb, monob⟩, pathb⟩ := buildT_nodup c ins
              (resolve_gate_outputT sig c ins f)
              (fun g o m w m' t hx => ih g o m w m' t hx) gid
              (List.range (ncolsOf gate.w1)) memo vals memo1 trb hb
            have hgid_not : gid ∉ trb := by
              intro hx
              exact hacyc gid (pathb gid hx)
            refine ⟨⟨?_, ?_, ?_, ?_⟩, ?_⟩
            · rw [List.nodup_append]
              refine ⟨ndb, List.nodup_singleton gid, ?_⟩
              intro x hx1 hx2
              rw [List.mem_singleton] at hx2
              subst hx2
              exact hgid_not hx1
            · intro x hx
              rcases List.mem_append.mp hx with hx1 | hx2
              · exact freshb x hx1
              · rw [List.mem_singleton] at hx2
                subst hx2
                exact hmf
            · intro x hx
              rcases List.mem_append.mp hx with hx1 | hx2
              · have hne : x ≠ gid := fun hxe => hgid_not (hxe ▸ hx1)
                obtain ⟨o, ho⟩ := presb x hx1
                refine ⟨o, ?_⟩
                rw [amFind_amInsert_ne gid x _ _ hne]
                exact ho
              · rw [List.mem_singleton] at hx2
                subst hx2
                exact ⟨NeuralGate.forward sig gate vals, amFind_amInsert_self _ _ _⟩
            · intro x o ho
              have hne : x ≠ gid := by
                intro hxe
                subst hxe
                rw [hmf] at ho
                cases ho
              rw [amFind_amInsert_ne gid x _ _ hne]
              exact monob x o ho
            · intro x hx
              rcases List.mem_append.mp hx with hx1 | hx2
              · exact (pathb x hx1).to_reflTransGen
              · rw [List.mem_singleton] at hx2
                subst hx2
                exact Relation.ReflTransGen.refl

theorem forwardAuxT_nodup (sig : ℚ → ℚ) (c : NeuralCircuit) (ins : List ℚ)
    (hacyc : Acyclic c) (fuel : Nat) :
    ∀ l memo res tr, forwardAuxT sig c ins fuel l memo = Except.ok (res, tr) →
      tr.Nodup ∧ (∀ x ∈ tr, amFind x (memo : List (Nat × List ℚ)) = none) ∧
      ∃ memoF : Memo, (∀ x ∈ tr, ∃ o, amFind x (memoF : List (Nat × List ℚ)) = some o) ∧
        (∀ x o, amFind x (memo : List (Nat × List ℚ)) = some o →
          amFind x (memoF : List (Nat × List ℚ)) = some o) := by
  intro l
  induction l with
  | nil =>
    intro memo res tr h
    simp only [forwardAuxT, Except.ok.injEq, Prod.mk.injEq] at h
    obtain ⟨h1, h2⟩ := h
    subst h1
    subst h2
    exact ⟨List.nodup_nil, by simp, memo, by simp, fun x o hx => hx⟩
  | cons p rest ih =>
    obtain ⟨gid, oidx⟩ := p
    intro memo res tr h
    simp only [forwardAuxT] at h
    cases hv : resolve_gate_outputT sig c ins fuel gid oidx memo with
    | error e =>
      rw [hv] at h
      exact absurd h (by simp)
    | ok q =>
      obtain ⟨v, memo1, tr1⟩ := q
      rw [hv] at h
      dsimp only at h
      cases hrest : forwardAuxT sig c ins fuel rest memo1 with
      | error e =>
        rw [hrest] at h
        exact absurd h (by simp)
      | ok p2 =>
        obtain ⟨vs, tr2⟩ := p2
        rw [hrest] at h
        simp only [Except.ok.injEq, Prod.mk.injEq] at h
        obtain ⟨h1, h2⟩ := h
        subst h1
        subst h2
        obtain ⟨⟨nd1, fresh1, pres1, mono1⟩, _⟩ :=
          resolveT_nodup sig c ins hacyc fuel gid oidx memo v memo1 tr1 hv
        obtain ⟨nd2, fresh2, memoF, pres2, mono2⟩ := ih memo1 vs tr2 hrest
        refine ⟨?_, ?_, memoF, ?_, ?_⟩
        · rw [List.nodup_append]
          refine ⟨nd1, nd2, ?_⟩
          intro x hx1 hx2
          obtain ⟨o, ho⟩ := pres1 x hx1
          rw [fresh2 x hx2] at ho
          cases ho
        · intro x hx
          rcases List.mem_append.mp hx with hx1 | hx2
          · exact fresh1 x hx1
          · cases hmem : amFind x (memo : List (Nat × List ℚ)) with
            | none => rfl
            | some o => exact absurd (mono1 x o hmem) (by rw [fresh2 x hx2]; simp)
        · intro x hx
          rcases List.mem_append.mp hx with hx1 | hx2
          · obtain ⟨o, ho⟩ := pres1 x hx1
            exact ⟨o, mono2 x o ho⟩
          · exact pres2 x hx2
        · intro x o ho
          exact mono2 x o (mono1 x o ho)

end legacy

/-- **C6**: for every acyclic circuit and input vector on which
`NeuralCircuit::forward` succeeds, the memoized evaluation returns the same
circuit outputs as a naive non-memoized recursive evaluation of the same DAG,
and it computes each gate's forward pass at most once per forward call
regardless of fan-out (the instrumented run's trace of computed gates is
duplicate-free). -/
theorem claim_C6_memoized_eval (sig : ℚ → ℚ) (c : legacy.NeuralCircuit)
    (ins res : List ℚ) (hacyc : legacy.Acyclic c)
    (h : legacy.NeuralCircuit.forward sig c ins = Except.ok res) :
    (∃ fuel, legacy.naiveForward sig c ins fuel = Except.ok res) ∧
    (∃ tr, legacy.forwardT sig c ins = Except.ok (res, tr) ∧ tr.Nodup) := by
  by_cases hsz : ins.length ≠ c.input_size
  · rw [legacy.NeuralCircuit.forward, if_pos hsz] at h
    exact absurd h (by simp)
  · have hfa : legacy.forwardAux sig c ins (c.gates.length + 1) c.output_mapping [] =
        Except.ok res := by
      rw [legacy.NeuralCircuit.forward, if_neg hsz] at h
      exact h
    have hm0 : legacy.MemoOK sig c ins ([] : legacy.Memo) := by
      intro gid outs hfind
      exact absurd hfind (by simp [amFind])
    constructor
    · obtain ⟨f, hn⟩ :=
        legacy.forwardAux_sim sig c ins (c.gates.length + 1) c.output_mapping [] res hm0 hfa
      refine ⟨f, ?_⟩
      rw [legacy.naiveForward, if_neg hsz]
      exact hn
    · have her := legacy.forwardT_erase sig c ins
      rw [her] at h
      cases hft : legacy.forwardT sig c ins with
      | error e =>
        rw [hft] at h
        exact absurd h (by simp [Except.map])
      | ok p =>
        obtain ⟨res2, tr⟩ := p
        rw [hft] at h
        simp only [Except.map, Except.ok.injEq] at h
        subst h
        have hfat : legacy.forwardAuxT sig c ins (c.gates.length + 1)
            c.output_mapping [] = Except.ok (res2, tr) := by
          rw [legacy.forwardT, if_neg hsz] at hft
          exact hft
        obtain ⟨nd, _, _⟩ := legacy.forwardAuxT_nodup sig c ins hacyc
          (c.gates.length + 1) c.output_mapping [] res2 tr hfat
        exact ⟨tr, rfl, nd⟩

/-- A one-gate identity circuit with fan-out two (both circuit outputs read
gate 0), for the C6 witness. -/
def circC6 : legacy.NeuralCircuit :=
  { gates := [(0, ⟨[[1]], [0], [[1]], [0],
      legacy.Activation.Identity, legacy.Activation.Identity⟩)],
    connections := [((0, 0), (none, 0))],
    input_size := 1,
    output_mapping := [(0, 0), (0, 0)],
    next_gate_id := 1 }

/-- Witness for C6: the fan-out-two identity circuit is acyclic, its forward
pass succeeds, and the theorem applies. -/
theorem claim_C6_memoized_eval_witness :
    (∃ fuel, legacy.naiveForward (fun x => x) circC6 [1] fuel = Except.ok [1, 1]) ∧
    (∃ tr, legacy.forwardT (fun x => x) circC6 [1] = Except.ok ([1, 1], tr) ∧
      tr.Nodup) := by
  have hnostep : ∀ a b, ¬ legacy.ConnStep circC6 a b := by
    intro a b hs
    obtain ⟨i, j, hfind⟩ := hs
    by_cases hab : (a, i) = ((0 : Nat), (0 : Nat))
    · rw [hab] at hfind
      simp [amFind, circC6] at hfind
    · simp [amFind, circC6, hab] at hfind
  have hacyc : legacy.Acyclic circC6 := by
    intro g hg
    cases hg with
    | single hr => exact hnostep _ _ hr
    | tail _ hr => exact hnostep _ _ hr
  have hfwd : legacy.NeuralCircuit.forward (fun x => x) circC6 [1] =
      Except.ok [1, 1] := by
    norm_num [legacy.NeuralCircuit.forward, legacy.forwardAux,
      legacy.resolve_gate_output, legacy.build_gate_inputs, legacy.NeuralGate.forward,
      legacy.Activation.apply, amFind, amInsert, ncolsOf, matVec, dotL, vecAdd, circC6,
      List.range_succ]
  exact claim_C6_memoized_eval (fun x => x) circC6 [1] [1, 1] hacyc hfwd

namespace legacy

/-! ### Error-condition lemmas for C7 -/

theorem apply_length (sig : ℚ → ℚ) (a : Activation) (x : List ℚ) :
    (Activation.apply sig a x).length = x.length := by
  cases a <;> simp [Activation.apply]

theorem gate_forward_length (sig : ℚ → ℚ) (g : NeuralGate) (vals : List ℚ) :
    (NeuralGate.forward sig g vals).length = min g.w2.length g.b2.length := by
  rw [NeuralGate.forward]
  simp [apply_length, vecAdd, matVec]

/-- Inversion of a successful naive gate evaluation. -/
theorem naive_gate_outputs_inv (sig : ℚ → ℚ) (c : NeuralCircuit) (ins : List ℚ)
    (f gid : Nat) (outs : List ℚ)
    (h : naive_gate_outputs sig c ins f gid = Except.ok outs) :
    ∃ f0 gate vals, amFind gid c.gates = some gate ∧
      naive_build c ins (naive_resolve sig c ins f0) gid
        (List.range (ncolsOf gate.w1)) = Except.ok vals ∧
      outs = NeuralGate.forward sig gate vals := by
  cases f with
  | zero => exact absurd h (by simp [naive_gate_outputs])
  | succ f0 =>
    rw [naive_gate_outputs_succ] at h
    cases hg : amFind gid c.gates with
    | none =>
      rw [hg] at h
      exact absurd h (by simp)
    | some gate =>
      rw [hg] at h
      dsimp only at h
      cases hb : naive_build c ins (naive_resolve sig c ins f0) gid
          (List.range (ncolsOf gate.w1)) with
      | error e =>
        rw [hb] at h
        exact absurd h (by simp)
      | ok vals =>
        rw [hb] at h
        simp only [Except.ok.injEq] at h
        exact ⟨f0, gate, vals, rfl, hb, h.symm⟩

/-- A naive input build fails on an out-of-range circuit-input connection. -/
theorem naive_build_badinput (c : NeuralCircuit) (ins : List ℚ)
    (recurse : Nat → Nat → Except String ℚ) (gid i sidx : Nat)
    (hconn : amFind (gid, i) c.connections = some (none, sidx))
    (hoob : ins.get? sidx = none) :
    ∀ l vals, i ∈ l → naive_build c ins recurse gid l ≠ Except.ok vals := by
  intro l
  induction l with
  | nil => intro vals hmem; exact absurd hmem (by simp)
  | cons j rest ih =>
    intro vals hmem h
    simp only [naive_build] at h
    by_cases hji : j = i
    · subst hji
      rw [hconn] at h
      dsimp only at h
      rw [hoob] at h
      exact absurd h (by simp)
    · have hmem2 : i ∈ rest := by
        rcases List.mem_cons.mp hmem with he | hr
        · exact absurd he.symm hji
        · exact hr
      cases hc : amFind (gid, j) c.connections with
      | none =>
        rw [hc] at h
        dsimp only at h
        cases hrec : naive_build c ins recurse gid rest with
        | error e => rw [hrec] at h; exact absurd h (by simp)
        | ok vs => exact ih vs hmem2 hrec
      | some p =>
        obtain ⟨srcOpt, sx⟩ := p
        cases srcOpt with
        | some src =>
          rw [hc] at h
          dsimp only at h
          cases hv : recurse src sx with
          | error e => rw [hv] at h; exact absurd h (by simp)
          | ok v =>
            rw [hv] at h
            dsimp only at h
            cases hrec : naive_build c ins recurse gid rest with
            | error e => rw [hrec] at h; exact absurd h (by simp)
            | ok vs => exact ih vs hmem2 hrec
        | none =>
          rw [hc] at h
          dsimp only at h
          cases hv : ins.get? sx with
          | none => rw [hv] at h; exact absurd h (by simp)
          | some v =>
            rw [hv] at h
            dsimp only at h
            cases hrec : naive_build c ins recurse gid rest with
            | error e => rw [hrec] at h; exact absurd h (by simp)
            | ok vs => exact ih vs hmem2 hrec

/-- The memoized input build fails on an out-of-range circuit-input
connection, for any recursive resolver. -/
theorem build_badinput (c : NeuralCircuit) (ins : List ℚ)
    (recurse : Nat → Nat → Memo → Except String (ℚ × Memo)) (gid i sidx : Nat)
    (hconn : amFind (gid, i) c.connections = some (none, sidx))
    (hoob : ins.get? sidx = none) :
    ∀ l memo p, i ∈ l → build_gate_inputs c ins recurse gid l memo ≠ Except.ok p := by
  intro l
  induction l with
  | nil => intro memo p hmem; exact absurd hmem (by simp)
  | cons j rest ih =>
    intro memo p hmem h
    simp only [build_gate_inputs] at h
    by_cases hji : j = i
    · subst hji
      rw [hconn] at h
      dsimp only at h
      rw [hoob] at h
      exact absurd h (by simp)
    · have hmem2 : i ∈ rest := by
        rcases List.mem_cons.mp hmem with he | hr
        · exact absurd he.symm hji
        · exact hr
      cases hc : amFind (gid, j) c.connections with
      | none =>
        rw [hc] at h
        dsimp only at h
        cases hrec : build_gate_inputs c ins recurse gid rest memo with
        | error e => rw [hrec] at h; exact absurd h (by simp)
        | ok q => exact ih memo q hmem2 hrec
      | some pr =>
        obtain ⟨srcOpt, sx⟩ := pr
        cases srcOpt with
        | some src =>
          rw [hc] at h
          dsimp only at h
          cases hv : recurse src sx memo with
          | error e => rw [hv] at h; exact absurd h (by simp)
          | ok q =>
            obtain ⟨v, memo1⟩ := q
            rw [hv] at h
            dsimp only at h
            cases hrec : build_gate_inputs c ins recurse gid rest memo1 with
            | error e => rw [hrec] at h; exact absurd h (by simp)
            | ok q2 => exact ih memo1 q2 hmem2 hrec
        | none =>
          rw [hc] at h
          dsimp only at h
          cases hv : ins.get? sx with
          | none => rw [hv] at h; exact absurd h (by simp)
          | some v =>
            rw [hv] at h
            dsimp only at h
            cases hrec : build_gate_inputs c ins recurse gid rest memo with
            | error e => rw [hrec] at h; exact absurd h (by simp)
            | ok q2 => exact ih memo q2 hmem2 hrec

end legacy

namespace legacy

theorem resolve_fail_missing_gate (sig : ℚ → ℚ) (c : NeuralCircuit) (ins : List ℚ)
    (gid oidx : Nat) (hg : amFind gid c.gates = none) :
    ∀ fuel memo p, MemoOK sig c ins memo →
      resolve_gate_output sig c ins fuel gid oidx memo ≠ Except.ok p := by
  intro fuel memo p hm h
  cases fuel with
  | zero => exact absurd h (by simp [resolve_gate_output])
  | succ f =>
    simp only [resolve_gate_output] at h
    cases hmf : amFind gid (memo : List (Nat × List ℚ)) with
    | some outputs =>
      obtain ⟨f0, hno⟩ := hm gid outputs hmf
      obtain ⟨f1, gate, vals, hg2, _, _⟩ :=
        naive_gate_outputs_inv sig c ins f0 gid outputs hno
      rw [hg] at hg2
      cases hg2
    | none =>
      rw [hmf] at h
      dsimp only at h
      rw [hg] at h
      exact absurd h (by simp)

theorem resolve_fail_bad_outidx (sig : ℚ → ℚ) (c : NeuralCircuit) (ins : List ℚ)
    (gid oidx : Nat) (gate : NeuralGate) (hg : amFind gid c.gates = some gate)
    (hshape : gate.b2.length = gate.w2.length) (hoob : gate.w2.length ≤ oidx) :
    ∀ fuel memo p, MemoOK sig c ins memo →
      resolve_gate_output sig c ins fuel gid oidx memo ≠ Except.ok p := by
  intro fuel memo p hm h
  cases fuel with
  | zero => exact absurd h (by simp [resolve_gate_output])
  | succ f =>
    simp only [resolve_gate_output] at h
    cases hmf : amFind gid (memo : List (Nat × List ℚ)) with
    | some outputs =>
      rw [hmf] at h
      dsimp only at h
      obtain ⟨f0, hno⟩ := hm gid outputs hmf
      obtain ⟨f1, gate2, vals, hg2, _, houts⟩ :=
        naive_gate_outputs_inv sig c ins f0 gid outputs hno
      rw [hg] at hg2
      have heq : gate = gate2 := Option.some.inj hg2
      have hlen : outputs.length = gate.w2.length := by
        rw [houts, ← heq, gate_forward_length, hshape, min_self]
      have hget : outputs.get? oidx = none :=
        List.get?_eq_none.mpr (by rw [hlen]; exact hoob)
      rw [hget] at h
      exact absurd h (by simp)
    | none =>
      rw [hmf] at h
      dsimp only at h
      rw [hg] at h
      dsimp only at h
      cases hb : build_gate_inputs c ins (resolve_gate_output sig c ins f) gid
          (List.range (ncolsOf gate.w1)) memo with
      | error e =>
        rw [hb] at h
        exact absurd h (by simp)
      | ok q =>
        obtain ⟨vals, memo1⟩ := q
        rw [hb] at h
        dsimp only at h
        have hget : (NeuralGate.forward sig gate vals).get? oidx = none :=
          List.get?_eq_none.mpr
            (by rw [gate_forward_length, hshape, min_self]; exact hoob)
        rw [hget] at h
        exact absurd h (by simp)

theorem resolve_fail_badinput (sig : ℚ → ℚ) (c : NeuralCircuit) (ins : List ℚ)
    (gid oidx i sidx : Nat) (gate : NeuralGate)
    (hg : amFind gid c.gates = some gate) (hi : i < ncolsOf gate.w1)
    (hconn : amFind (gid, i) c.connections = some (none, sidx))
    (hoob : ins.get? sidx = none) :
    ∀ fuel memo p, MemoOK sig c ins memo →
      resolve_gate_output sig c ins fuel gid oidx memo ≠ Except.ok p := by
  intro fuel memo p hm h
  cases fuel with
  | zero => exact absurd h (by simp [resolve_gate_output])
  | succ f =>
    simp only [resolve_gate_output] at h
    cases hmf : amFind gid (memo : List (Nat × List ℚ)) with
    | some outputs =>
      obtain ⟨f0, hno⟩ := hm gid outputs hmf
      obtain ⟨f1, gate2, vals, hg2, hnb, _⟩ :=
        naive_gate_outputs_inv sig c ins f0 gid outputs hno
      rw [hg] at hg2
      have heq : gate = gate2 := Option.some.inj hg2
      rw [← heq] at hnb
      exact naive_build_badinput c ins (naive_resolve sig c ins f1) gid i sidx
        hconn hoob (List.range (ncolsOf gate.w1)) vals (List.mem_range.mpr hi) hnb
    | none =>
      rw [hmf] at h
      dsimp only at h
      rw [hg] at h
      dsimp only at h
      cases hb : build_gate_inputs c ins (resolve_gate_output sig c ins f) gid
          (List.range (ncolsOf gate.w1)) memo with
      | error e =>
        rw [hb] at h
        exact absurd h (by simp)
      | ok q =>
        exact build_badinput c ins (resolve_gate_output sig c ins f) gid i sidx
          hconn hoob (List.range (ncolsOf gate.w1)) memo q
          (List.mem_range.mpr hi) hb

theorem forwardAux_fail (sig : ℚ → ℚ) (c : NeuralCircuit) (ins : List ℚ) (fuel : Nat)
    (gid oidx : Nat)
    (hfail : ∀ memo p, MemoOK sig c ins memo →
      resolve_gate_output sig c ins fuel gid oidx memo ≠ Except.ok p) :
    ∀ l memo res, MemoOK sig c ins memo → (gid, oidx) ∈ l →
      forwardAux sig c ins fuel l memo ≠ Except.ok res := by
  intro l
  induction l with
  | nil => intro memo res _ hmem; exact absurd hmem (by simp)
  | cons q rest ih =>
    obtain ⟨g, o⟩ := q
    intro memo res hm hmem h
    simp only [forwardAux] at h
    cases hv : resolve_gate_output sig c ins fuel g o memo with
    | error e =>
      rw [hv] at h
      exact absurd h (by simp)
    | ok p =>
      obtain ⟨v, memo1⟩ := p
      by_cases hgo : (g, o) = (gid, oidx)
      · obtain ⟨rfl, rfl⟩ := Prod.mk.injEq g o gid oidx ▸ hgo
        exact hfail memo (v, memo1) hm hv
      · have hmem2 : (gid, oidx) ∈ rest := by
          rcases List.mem_cons.mp hmem with he | hr
          · exact absurd he.symm hgo
          · exact hr
        obtain ⟨hm1, _⟩ := resolve_sim sig c ins fuel g o memo v memo1 hm hv
        rw [hv] at h
        dsimp only at h
        cases hrest : forwardAux sig c ins fuel rest memo1 with
        | error e =>
          rw [hrest] at h
          exact absurd h (by simp)
        | ok vs => exact ih memo1 vs hm1 hmem2 hrest

theorem exists_error_of_never_ok {α : Type} (x : Except String α)
    (h : ∀ a, x ≠ Except.ok a) : ∃ e, x = Except.error e := by
  cases x with
  | error e => exact ⟨e, rfl⟩
  | ok a => exact absurd rfl (h a)

/-- The empty memo is trivially correct. -/
theorem memoOK_nil (sig : ℚ → ℚ) (c : NeuralCircuit) (ins : List ℚ) :
    MemoOK sig c ins ([] : Memo) := by
  intro gid outs hfind
  exact absurd hfind (by simp [amFind])

end legacy

/-- A circuit whose single gate declares two inputs but has only input 0
connected: connection `(0,1)` is missing. -/
def circC7 : legacy.NeuralCircuit :=
  { gates := [(0, ⟨[[1, 1]], [0], [[1]], [0],
      legacy.Activation.Identity, legacy.Activation.Identity⟩)],
    connections := [((0, 0), (none, 0))],
    input_size := 1,
    output_mapping := [(0, 0)],
    next_gate_id := 1 }

/-- **C7, as stated** is false: `circC7` has a referenced-but-missing
connection (gate 0 declares 2 inputs, yet `(0,1)` is unmapped), and
`forward` nevertheless succeeds — the missing connection is silently
defaulted to 0.0 instead of producing an error. -/
theorem claim_C7_counterexample :
    amFind ((0 : Nat), (1 : Nat)) circC7.connections = none ∧
    (∃ g, amFind (0 : Nat) circC7.gates = some g ∧ ncolsOf g.w1 = 2) ∧
    legacy.NeuralCircuit.forward (fun x => x) circC7 [1] = Except.ok [1] := by
  refine ⟨rfl, ⟨_, rfl, rfl⟩, ?_⟩
  norm_num [legacy.NeuralCircuit.forward, legacy.forwardAux,
    legacy.resolve_gate_output, legacy.build_gate_inputs, legacy.NeuralGate.forward,
    legacy.Activation.apply, amFind, amInsert, ncolsOf, matVec, dotL, vecAdd, circC7,
    List.range_succ]

/-- **C7, amended**: `NeuralCircuit::forward` returns an explicit error
result (and no outputs) when the circuit-input vector length mismatches the
declared input size, when an output-mapping entry references a nonexistent
gate id, an output index beyond the producing gate's output width, or a
circuit-input index beyond the input vector; a referenced-but-missing
connection is *not* an error — that gate input silently defaults to 0.0. -/
theorem claim_C7_error_conditions (sig : ℚ → ℚ) (c : legacy.NeuralCircuit)
    (ins : List ℚ) :
    (ins.length ≠ c.input_size →
      legacy.NeuralCircuit.forward sig c ins = Except.error "Input size mismatch") ∧
    (∀ gid oidx, (gid, oidx) ∈ c.output_mapping → amFind gid c.gates = none →
      ∃ e, legacy.NeuralCircuit.forward sig c ins = Except.error e) ∧
    (∀ gid oidx gate, (gid, oidx) ∈ c.output_mapping →
      amFind gid c.gates = some gate → gate.b2.length = gate.w2.length →
      gate.w2.length ≤ oidx →
      ∃ e, legacy.NeuralCircuit.forward sig c ins = Except.error e) ∧
    (∀ gid oidx gate i sidx, (gid, oidx) ∈ c.output_mapping →
      amFind gid c.gates = some gate → i < ncolsOf gate.w1 →
      amFind (gid, i) c.connections = some (none, sidx) → ins.length ≤ sidx →
      ∃ e, legacy.NeuralCircuit.forward sig c ins = Except.error e) ∧
    (∀ recurse gid i memo, amFind (gid, i) c.connections = none →
      legacy.build_gate_inputs c ins recurse gid [i] memo =
        Except.ok ([(0 : ℚ)], memo)) := by
  have hmismatch : ins.length ≠ c.input_size →
      legacy.NeuralCircuit.forward sig c ins = Except.error "Input size mismatch" := by
    intro hsz
    rw [legacy.NeuralCircuit.forward, if_pos hsz]
  refine ⟨hmismatch, ?_, ?_, ?_, ?_⟩
  · intro gid oidx hmem hg
    by_cases hsz : ins.length ≠ c.input_size
    · exact ⟨"Input size mismatch", hmismatch hsz⟩
    · apply legacy.exists_error_of_never_ok
      intro res hok
      rw [legacy.NeuralCircuit.forward, if_neg hsz] at hok
      exact legacy.forwardAux_fail sig c ins (c.gates.length + 1) gid oidx
        (fun memo p hm hr => legacy.resolve_fail_missing_gate sig c ins gid oidx hg
          (c.gates.length + 1) memo p hm hr)
        c.output_mapping [] res (legacy.memoOK_nil sig c ins) hmem hok
  · intro gid oidx gate hmem hg hshape hoob
    by_cases hsz : ins.length ≠ c.input_size
    · exact ⟨"Input size mismatch", hmismatch hsz⟩
    · apply legacy.exists_error_of_never_ok
      intro res hok
      rw [legacy.NeuralCircuit.forward, if_neg hsz] at hok
      exact legacy.forwardAux_fail sig c ins (c.gates.length + 1) gid oidx
        (fun memo p hm hr => legacy.resolve_fail_bad_outidx sig c ins gid oidx gate
          hg hshape hoob (c.gates.length + 1) memo p hm hr)
        c.output_mapping [] res (legacy.memoOK_nil sig c ins) hmem hok
  · intro gid oidx gate i sidx hmem hg hi hconn hoob
    by_cases hsz : ins.length ≠ c.input_size
    · exact ⟨"Input size mismatch", hmismatch hsz⟩
    · apply legacy.exists_error_of_never_ok
      intro res hok
      rw [legacy.NeuralCircuit.forward, if_neg hsz] at hok
      exact legacy.forwardAux_fail sig c ins (c.gates.length + 1) gid oidx
        (fun memo p hm hr => legacy.resolve_fail_badinput sig c ins gid oidx i sidx
          gate hg hi hconn (List.get?_eq_none.mpr hoob) (c.gates.length + 1)
          memo p hm hr)
        c.output_mapping [] res (legacy.memoOK_nil sig c ins) hmem hok
  · intro recurse gid i memo hconn
    simp only [legacy.build_gate_inputs, hconn]

/-- Circuits exercising each C7 error condition, and the C7 witness. -/
def circC7gate : legacy.NeuralCircuit :=
  { gates := [], connections := [], input_size := 0,
    output_mapping := [(5, 0)], next_gate_id := 0 }

def circC7idx : legacy.NeuralCircuit :=
  { gates := [(0, ⟨[[1]], [0], [[1]], [0],
      legacy.Activation.Identity, legacy.Activation.Identity⟩)],
    connections := [((0, 0), (none, 0))], input_size := 1,
    output_mapping := [(0, 5)], next_gate_id := 1 }

def circC7input : legacy.NeuralCircuit :=
  { gates := [(0, ⟨[[1]], [0], [[1]], [0],
      legacy.Activation.Identity, legacy.Activation.Identity⟩)],
    connections := [((0, 0), (none, 7))], input_size := 1,
    output_mapping := [(0, 0)], next_gate_id := 1 }

/-- Witness for the amended C7 at concrete circuits: a length mismatch, a
missing output gate, an out-of-range output index, an out-of-range
circuit-input index, and the zero default of a missing connection. -/
theorem claim_C7_error_conditions_witness :
    (legacy.NeuralCircuit.forward (fun x => x) circC7 [1, 2] =
      Except.error "Input size mismatch") ∧
    (∃ e, legacy.NeuralCircuit.forward (fun x => x) circC7gate [] =
      Except.error e) ∧
    (∃ e, legacy.NeuralCircuit.forward (fun x => x) circC7idx [1] =
      Except.error e) ∧
    (∃ e, legacy.NeuralCircuit.forward (fun x => x) circC7input [1] =
      Except.error e) ∧
    (∀ recurse memo, legacy.build_gate_inputs circC7 [1] recurse 0 [1] memo =
      Except.ok ([(0 : ℚ)], memo)) :=
  ⟨(claim_C7_error_conditions (fun x => x) circC7 [1, 2]).1 (by norm_num [circC7]),
   (claim_C7_error_conditions (fun x => x) circC7gate []).2.1 5 0 (by simp [circC7gate])
     rfl,
   (claim_C7_error_conditions (fun x => x) circC7idx [1]).2.2.1 0 5
     ⟨[[1]], [0], [[1]], [0], legacy.Activation.Identity, legacy.Activation.Identity⟩
     (by simp [circC7idx]) rfl (by norm_num) (by norm_num),
   (claim_C7_error_conditions (fun x => x) circC7input [1]).2.2.2.1 0 0
     ⟨[[1]], [0], [[1]], [0], legacy.Activation.Identity, legacy.Activation.Identity⟩
     0 7 (by simp [circC7input]) rfl (by norm_num [ncolsOf]) rfl (by norm_num),
   fun recurse memo =>
     (claim_C7_error_conditions (fun x => x) circC7 [1]).2.2.2.2 recurse 0 1 memo rfl⟩
